import Mathlib

/-!
Shallow embedding of the TNG e-wallet statement visualizer
(`src/app.py`, `src/extract.py`).

The heart of both source files is a single Python regular expression

  (?P<date>\d{1,2}/\d{1,2}/2025).*?
  (?P<type>Receive from Wallet|PayDirect Payment|DUITNOW_RECEI).*?
  (?P<name>[A-Z\s\/]+)?\s+.*?
  RM(?P<amount>\d+\.\d{2})\s+RM(?P<balance>\d+\.\d{2})

applied with `re.findall(..., flags=re.DOTALL)`.  We embed it as a
specialized backtracking matcher in continuation-passing style that
reproduces Python's leftmost, backtracking-priority semantics element by
element: lazy `.*?` tries the shortest skip first; greedy `+` and `{1,2}`
try the longest consumption first; the optional group `(...)?` tries the
present branch (with all its internal backtracking) before the absent
branch; the alternation tries its branches in written order; `re.DOTALL`
makes `.` match every character including newlines.
-/

/-- Python's `\s` on the ASCII range: the six whitespace characters
recognised by `str.strip` and the `re` module. -/
def isPySpace (c : Char) : Bool :=
  c = ' ' ∨ c = '\t' ∨ c = '\n' ∨ c = '\r' ∨ c = '\x0b' ∨ c = '\x0c'

/-- The character class `[A-Z\s\/]` of the optional counterparty-name
group. -/
def isNameChar (c : Char) : Bool :=
  ('A' ≤ c ∧ c ≤ 'Z') ∨ isPySpace c ∨ c = '/'

/-- Match a literal character sequence at the head of the input,
returning the rest of the input. -/
def matchLit : List Char → List Char → Option (List Char)
  | [], s => some s
  | _ :: _, [] => none
  | l :: ls, c :: cs => if c = l then matchLit ls cs else none

/-- Lazy `.*?` under `re.DOTALL`: hand the continuation the input after
skipping 0, 1, 2, ... characters, returning the first success. -/
def lazyStar {α : Type} (k : List Char → Option α) : List Char → Option α
  | [] => k []
  | c :: t =>
    match k (c :: t) with
    | some a => some a
    | none => lazyStar k t

/-- Backtracking for a greedy one-or-more repetition: try handing the
continuation the first `n` characters, then `n - 1`, ..., then `1`. -/
def greedyPlusAux {α : Type} (s : List Char) (k : List Char → List Char → Option α) :
    Nat → Option α
  | 0 => none
  | n + 1 =>
    match k (s.take (n + 1)) (s.drop (n + 1)) with
    | some a => some a
    | none => greedyPlusAux s k n

/-- Greedy `+` over a one-character class: consume the maximal run of
class characters, backtracking one character at a time down to one. -/
def greedyPlus {α : Type} (p : Char → Bool) (k : List Char → List Char → Option α)
    (s : List Char) : Option α :=
  greedyPlusAux s k (s.takeWhile p).length

/-- Greedy `\d{1,2}`: try two digits first, then one. -/
def digits12 {α : Type} (k : List Char → List Char → Option α) : List Char → Option α
  | [] => none
  | [a] => if a.isDigit then k [a] [] else none
  | a :: b :: rest =>
    if a.isDigit then
      if b.isDigit then
        match k [a, b] rest with
        | some a' => some a'
        | none => k [a] (b :: rest)
      else k [a] (b :: rest)
    else none

/-- `\d{2}`: exactly two digit characters. -/
def twoDigits : List Char → Option (List Char × List Char)
  | a :: b :: rest => if a.isDigit ∧ b.isDigit then some ([a, b], rest) else none
  | _ => none

/-- The three transaction-type literals of the alternation, in the order
they appear in the pattern. -/
def receiveLit : List Char := "Receive from Wallet".toList

def payDirectLit : List Char := "PayDirect Payment".toList

def duitnowLit : List Char := "DUITNOW_RECEI".toList

/-- The ordered alternation
`Receive from Wallet|PayDirect Payment|DUITNOW_RECEI`. -/
def matchType (s : List Char) : Option (List Char × List Char) :=
  match matchLit receiveLit s with
  | some r => some (receiveLit, r)
  | none =>
    match matchLit payDirectLit s with
    | some r => some (payDirectLit, r)
    | none =>
      match matchLit duitnowLit s with
      | some r => some (duitnowLit, r)
      | none => none

/-- The five capture groups of one match of the pattern. -/
structure MatchGroups where
  date : List Char
  type : List Char
  nameG : Option (List Char)
  amount : List Char
  balance : List Char
deriving Repr, DecidableEq

/-- Tail of the pattern: `RM(?P<amount>\d+\.\d{2})\s+RM(?P<balance>\d+\.\d{2})`,
with the already-captured date, type and optional name passed through. -/
def matchAmountTail (gDate gType : List Char) (gName : Option (List Char))
    (s : List Char) : Option (MatchGroups × List Char) :=
  match matchLit ['R', 'M'] s with
  | none => none
  | some s1 =>
    greedyPlus Char.isDigit (fun amInt s2 =>
      match s2 with
      | '.' :: s3 =>
        match twoDigits s3 with
        | none => none
        | some (amFrac, s4) =>
          greedyPlus isPySpace (fun _ s5 =>
            match matchLit ['R', 'M'] s5 with
            | none => none
            | some s6 =>
              greedyPlus Char.isDigit (fun balInt s7 =>
                match s7 with
                | '.' :: s8 =>
                  match twoDigits s8 with
                  | none => none
                  | some (balFrac, s9) =>
                    some (⟨gDate, gType, gName,
                          amInt ++ '.' :: amFrac, balInt ++ '.' :: balFrac⟩, s9)
                | _ => none) s6) s4
      | _ => none) s1

/-- Middle of the pattern, starting right after the type literal:
`.*?(?P<name>[A-Z\s\/]+)?\s+.*?RM...`.  The optional greedy group tries
its present branch, with all of its backtracking, before the absent
branch. -/
def matchAfterType (gDate gType : List Char) (s : List Char) :
    Option (MatchGroups × List Char) :=
  lazyStar (fun s1 =>
    match greedyPlus isNameChar (fun nm s2 =>
        greedyPlus isPySpace (fun _ s3 =>
          lazyStar (fun s4 => matchAmountTail gDate gType (some nm) s4) s3) s2) s1 with
    | some r => some r
    | none =>
      greedyPlus isPySpace (fun _ s3 =>
        lazyStar (fun s4 => matchAmountTail gDate gType none s4) s3) s1) s

/-- One attempt to match the whole pattern at the head of the input,
returning the capture groups and the input remaining after the match. -/
def matchFull (s : List Char) : Option (MatchGroups × List Char) :=
  digits12 (fun d1 s1 =>
    match s1 with
    | '/' :: s2 =>
      digits12 (fun d2 s3 =>
        match matchLit ('/' :: "2025".toList) s3 with
        | none => none
        | some s4 =>
          lazyStar (fun s5 =>
            match matchType s5 with
            | some (ty, s6) =>
              matchAfterType (d1 ++ '/' :: (d2 ++ '/' :: "2025".toList)) ty s6
            | none => none) s4
        ) s2
    | _ => none) s

/-- `re.findall` scanning: try a match at the current position; on
success continue after the match, on failure advance one character.  The
fuel starts at `length + 1`, which the scan never exhausts because every
match consumes at least the date. -/
def findAllAux : Nat → List Char → List MatchGroups
  | 0, _ => []
  | fuel + 1, s =>
    match matchFull s with
    | some (g, rest) => g :: findAllAux fuel rest
    | none =>
      match s with
      | [] => []
      | _ :: t => findAllAux fuel t

/-- All matches of the pattern over a text, in scan order. -/
def findAll (s : List Char) : List MatchGroups :=
  findAllAux (s.length + 1) s

/-!
Record construction.  Both source files build each transaction record
from a match tuple the same way:

    {"date": match[0], "type": match[1].strip(),
     "name": match[2].strip() if match[2] else "",
     "amount": float(match[3]), "balance": float(match[4])}

`re.findall` substitutes the empty string for a group that did not
participate in the match, and `'' ` is falsy in Python, so an absent name
yields `""`.  Amounts are captured by `\d+\.\d{2}`, so `float` is only
ever applied to a digit string with one dot and two fraction digits; we
read such strings as exact rationals.
-/

/-- Python `str.strip()`: drop leading and trailing whitespace. -/
def pyStripList (l : List Char) : List Char :=
  ((l.dropWhile isPySpace).reverse.dropWhile isPySpace).reverse

/-- Value of a digit string, most significant digit first. -/
def natOfDigits (l : List Char) : Nat :=
  l.foldl (fun a c => a * 10 + (c.toNat - 48)) 0

/-- Python `float` on a captured `\d+\.\d{2}` string, as an exact
rational. -/
def parseMoney (l : List Char) : ℚ :=
  let intPart := l.takeWhile (fun c => c ≠ '.')
  let fracPart := (l.dropWhile (fun c => c ≠ '.')).drop 1
  (natOfDigits intPart : ℚ) + (natOfDigits fracPart : ℚ) / 10 ^ fracPart.length

/-- A raw transaction record as built by the extraction loops
(`src/app.py` lines 22-28, `src/extract.py` lines 25-31, 55-61). -/
structure RawTransaction where
  date : String
  type : String
  name : String
  amount : ℚ
  balance : ℚ
deriving Repr, DecidableEq

/-- Build the record from one match tuple, exactly as the loop body
does. -/
def toRawTransaction (g : MatchGroups) : RawTransaction :=
  let nameRaw : List Char :=
    match g.nameG with
    | some nm => nm
    | none => []
  { date := String.mk g.date
    type := String.mk (pyStripList g.type)
    name := if nameRaw = [] then "" else String.mk (pyStripList nameRaw)
    amount := parseMoney g.amount
    balance := parseMoney g.balance }

/-- The shared per-page pattern-matching pass: all matches of the
pattern over one page's text, turned into records in match order. -/
def extractFromText (text : String) : List RawTransaction :=
  (findAll text.toList).map toRawTransaction

/-!
Page and document model.  `page.extract_text()` can return text, return
`None` (no extractable text; the code also treats the empty string as
"no text" via `if not text`), or raise.  `pdfplumber.open` can raise
(wrong password, corrupt file).  We model a page as
`Except String (Option String)` and an opened document as a list of
pages; the open itself is `Except String Document`.  In both source
files a single `try` block wraps the document open *and* the whole page
loop, so the first raised exception ends the loop; the handler reports
the error and the accumulated records are returned.
-/

abbrev Page := Except String (Option String)

structure Document where
  pages : List Page

/-- The page loop of `extract_transactions` (`src/app.py` lines 12-28)
under the surrounding `try`: pages with no text are skipped, the first
page exception aborts the loop and produces the handler's diagnostic,
and the records accumulated so far are kept.  Returns the records and
the diagnostics emitted. -/
def pagesLoop (ep : String) : List Page → List RawTransaction × List String
  | [] => ([], [])
  | Except.error e :: _ => ([], [ep ++ e])
  | Except.ok none :: rest => pagesLoop ep rest
  | Except.ok (some t) :: rest =>
    if t = "" then pagesLoop ep rest
    else
      let r := pagesLoop ep rest
      (extractFromText t ++ r.1, r.2)

/-- `extract_transactions(pdf_path, password)` of `src/app.py`:
`try: open; loop over pages; except Exception as e: st.error(...)`;
always returns the accumulated `transactions` list.  The result pairs
the returned records with the diagnostics reported via `st.error`. -/
def extract_transactions (openResult : Except String Document) :
    List RawTransaction × List String :=
  match openResult with
  | Except.error e => ([], ["Error processing PDF: " ++ e])
  | Except.ok doc => pagesLoop "Error processing PDF: " doc.pages

/-- `extract_with_pdfplumber(pdf_path, password)` of `src/extract.py`:
identical control flow, with the diagnostic printed instead. -/
def extract_with_pdfplumber (openResult : Except String Document) :
    List RawTransaction × List String :=
  match openResult with
  | Except.error e => ([], ["Error using pdfplumber: " ++ e])
  | Except.ok doc => pagesLoop "Error using pdfplumber: " doc.pages

/-- Environment for the OCR fallback: `convert_from_path` either raises
or yields one image per page, and `pytesseract.image_to_string` yields
each image's recognised text.  A raised conversion error is caught by
the surrounding `try`. -/
structure OcrEnv where
  pages : Except String (List String)

/-- `extract_with_ocr(pdf_path)` of `src/extract.py`: rasterize every
page, OCR each image, and run the identical pattern-matching pass on
each page's OCR text; errors are caught and reported. -/
def extract_with_ocr (env : OcrEnv) : List RawTransaction × List String :=
  match env.pages with
  | Except.error e => ([], ["Error using OCR: " ++ e])
  | Except.ok texts => ((texts.map extractFromText).flatten, [])

/-- The `__main__` driver of `src/extract.py` (lines 73-77):
`txns = extract_with_pdfplumber(...)`; `if not txns: txns =
extract_with_ocr(...)`. -/
def mainExtract (doc : Except String Document) (ocr : OcrEnv) :
    List RawTransaction :=
  let txns := (extract_with_pdfplumber doc).1
  if txns = [] then (extract_with_ocr ocr).1 else txns

/-!
The normalizer (`preprocess_transactions`, `src/app.py` lines 33-42).

`pd.to_datetime(df['date'], format="%d/%m/%Y")` parses each date string
strictly against the format: a 1-2 digit day, `/`, a 1-2 digit month,
`/`, a 4 digit year, nothing else, with the day and month in their
calendar ranges and the day valid for the month and year; any
non-conforming string raises.  The result is a `datetime64[ns]`
timestamp, so a conforming date whose midnight falls outside the
representable nanosecond range — before 1677-09-22 or after 2262-04-11
— also raises (`OutOfBoundsDatetime`).  We model a parsed date and the
parser directly, encoding the range bound on the key
`year * 10000 + month * 100 + day`, which orders valid calendar dates
lexicographically.
-/

structure Date where
  year : Nat
  month : Nat
  day : Nat
deriving Repr, DecidableEq

def isLeapYear (y : Nat) : Bool :=
  (y % 4 = 0 ∧ y % 100 ≠ 0) ∨ y % 400 = 0

def daysInMonth (y m : Nat) : Nat :=
  if m = 2 then (if isLeapYear y then 29 else 28)
  else if m = 4 ∨ m = 6 ∨ m = 9 ∨ m = 11 then 30
  else 31

/-- Strict `day/month/year` parsing as performed by
`pd.to_datetime(..., format="%d/%m/%Y")`: consume 1-2 digits, `/`, 1-2
digits, `/`, exactly 4 digits, end of string; then validate the calendar
ranges (year at least 1, month 1-12, day 1 to the month's length); then
validate the `datetime64[ns]` timestamp range — midnight of the parsed
date must lie in 1677-09-22 .. 2262-04-11, else `pd.to_datetime` raises
`OutOfBoundsDatetime`.  On the key `y * 10000 + m * 100 + d` the range
is `16770922 .. 22620411`. -/
def parseDateChars (s : List Char) : Option Date :=
  if (s.takeWhile Char.isDigit).length = 0 ∨
      2 < (s.takeWhile Char.isDigit).length then none else
  match s.dropWhile Char.isDigit with
  | '/' :: s2 =>
    if (s2.takeWhile Char.isDigit).length = 0 ∨
        2 < (s2.takeWhile Char.isDigit).length then none else
    match s2.dropWhile Char.isDigit with
    | '/' :: s4 =>
      if (s4.takeWhile Char.isDigit).length = 4 ∧
          s4.dropWhile Char.isDigit = [] then
        if 1 ≤ natOfDigits (s4.takeWhile Char.isDigit) ∧
            1 ≤ natOfDigits (s2.takeWhile Char.isDigit) ∧
            natOfDigits (s2.takeWhile Char.isDigit) ≤ 12 ∧
            1 ≤ natOfDigits (s.takeWhile Char.isDigit) ∧
            natOfDigits (s.takeWhile Char.isDigit) ≤
              daysInMonth (natOfDigits (s4.takeWhile Char.isDigit))
                (natOfDigits (s2.takeWhile Char.isDigit)) then
          if 16770922 ≤ natOfDigits (s4.takeWhile Char.isDigit) * 10000 +
                natOfDigits (s2.takeWhile Char.isDigit) * 100 +
                natOfDigits (s.takeWhile Char.isDigit) ∧
              natOfDigits (s4.takeWhile Char.isDigit) * 10000 +
                natOfDigits (s2.takeWhile Char.isDigit) * 100 +
                natOfDigits (s.takeWhile Char.isDigit) ≤ 22620411 then
            some ⟨natOfDigits (s4.takeWhile Char.isDigit),
                  natOfDigits (s2.takeWhile Char.isDigit),
                  natOfDigits (s.takeWhile Char.isDigit)⟩
          else none
        else none
      else none
    | _ => none
  | _ => none

def parseDate (s : String) : Option Date :=
  parseDateChars s.toList

/-- A normalized transaction: the raw fields with the date parsed and
the signed amount added (`df['date'] = ...`, `df['amount_signed'] =
...`). -/
structure NormalizedTransaction where
  date : Date
  type : String
  name : String
  amount : ℚ
  balance : ℚ
  amount_signed : ℚ
deriving Repr, DecidableEq

/-- The credit types of the sign rule:
`r['type'] in ['Receive from Wallet', 'DUITNOW_RECEI']`. -/
def credits : List String := ["Receive from Wallet", "DUITNOW_RECEI"]

/-- Normalization of one row: parse the date (raising on a
non-conforming string) and compute
`r['amount'] if r['type'] in [...] else -r['amount']`. -/
def normalizeRow (r : RawTransaction) : Except String NormalizedTransaction :=
  match parseDate r.date with
  | none => Except.error ("time data " ++ r.date ++ " does not match format %d/%m/%Y")
  | some d =>
    Except.ok
      { date := d
        type := r.type
        name := r.name
        amount := r.amount
        balance := r.balance
        amount_signed := if r.type ∈ credits then r.amount else -r.amount }

/-- `preprocess_transactions(txns)` of `src/app.py`: an empty input is
returned unchanged (empty, before any parsing); otherwise the date
column is parsed — the first non-conforming date raises out of the
function — and the signed-amount column is computed row by row. -/
def preprocess_transactions (txns : List RawTransaction) :
    Except String (List NormalizedTransaction) :=
  if txns = [] then Except.ok []
  else txns.mapM normalizeRow

/-!
Spec-side predicates.  `ConformsDMY` transcribes the spec's notion of a
string conforming to the `day/month/year` format; `layoutChars` and
`ValidLayout` describe a text block in the expected statement layout
with whitespace-separated fields.  These are written from the spec's
words, to be compared against the code-side definitions above.
-/

/-- A character sequence conforms to the `day/month/year` date format:
a 1-2 digit day, `/`, a 1-2 digit month, `/`, a 4 digit year, nothing
else, denoting a valid calendar date. -/
def ConformsDMYList (t : List Char) : Prop :=
  ∃ ds ms ys : List Char,
    t = ds ++ ('/' :: (ms ++ ('/' :: ys))) ∧
    ds ≠ [] ∧ ds.length ≤ 2 ∧ (∀ c ∈ ds, c.isDigit = true) ∧
    ms ≠ [] ∧ ms.length ≤ 2 ∧ (∀ c ∈ ms, c.isDigit = true) ∧
    ys.length = 4 ∧ (∀ c ∈ ys, c.isDigit = true) ∧
    1 ≤ natOfDigits ys ∧
    1 ≤ natOfDigits ms ∧ natOfDigits ms ≤ 12 ∧
    1 ≤ natOfDigits ds ∧
    natOfDigits ds ≤ daysInMonth (natOfDigits ys) (natOfDigits ms)

/-- A string conforms to the `day/month/year` date format. -/
def ConformsDMY (s : String) : Prop :=
  ConformsDMYList s.toList

/-- A character sequence conforms to the `day/month/year` date format
and its calendar date lies within the `datetime64[ns]` timestamp range
1677-09-22 .. 2262-04-11 (midnight representable): `ConformsDMYList`
plus the range bound on the key `year * 10000 + month * 100 + day`. -/
def ConformsDMYInRangeList (t : List Char) : Prop :=
  ∃ ds ms ys : List Char,
    t = ds ++ ('/' :: (ms ++ ('/' :: ys))) ∧
    ds ≠ [] ∧ ds.length ≤ 2 ∧ (∀ c ∈ ds, c.isDigit = true) ∧
    ms ≠ [] ∧ ms.length ≤ 2 ∧ (∀ c ∈ ms, c.isDigit = true) ∧
    ys.length = 4 ∧ (∀ c ∈ ys, c.isDigit = true) ∧
    1 ≤ natOfDigits ys ∧
    1 ≤ natOfDigits ms ∧ natOfDigits ms ≤ 12 ∧
    1 ≤ natOfDigits ds ∧
    natOfDigits ds ≤ daysInMonth (natOfDigits ys) (natOfDigits ms) ∧
    16770922 ≤ natOfDigits ys * 10000 + natOfDigits ms * 100 +
      natOfDigits ds ∧
    natOfDigits ys * 10000 + natOfDigits ms * 100 +
      natOfDigits ds ≤ 22620411

/-- A string conforms to the `day/month/year` date format and denotes
a date in the `datetime64[ns]` timestamp range. -/
def ConformsDMYInRange (s : String) : Prop :=
  ConformsDMYInRangeList s.toList

/-- A text block in the expected statement layout, with the fields
separated by single spaces:
`date SP type SP name SP RMamount SP RMbalance`. -/
def layoutChars (d m ty nm amInt : List Char) (f1 f2 : Char)
    (balInt : List Char) (g1 g2 : Char) : List Char :=
  d ++ ('/' :: (m ++ ('/' :: '2' :: '0' :: '2' :: '5' :: ' ' ::
    (ty ++ ' ' ::
      (nm ++ ' ' :: 'R' :: 'M' ::
        (amInt ++ '.' :: f1 :: f2 :: ' ' :: 'R' :: 'M' ::
          (balInt ++ ['.', g1, g2])))))))

/-- Validity of the layout parameters: digit-string day (1-2 digits),
month (1-2 digits) and 4-digit year 2025 forming a valid calendar date;
one of the three known type literals; a nonempty counterparty name over
the `[A-Z\s\/]` class, not starting or ending in whitespace; and amount
and balance digit strings with two fraction digits. -/
structure ValidLayout (d m ty nm amInt : List Char) (f1 f2 : Char)
    (balInt : List Char) (g1 g2 : Char) : Prop where
  d_digits : ∀ c ∈ d, c.isDigit = true
  d_len : d.length = 1 ∨ d.length = 2
  m_digits : ∀ c ∈ m, c.isDigit = true
  m_len : m.length = 1 ∨ m.length = 2
  d_lo : 1 ≤ natOfDigits d
  d_hi : natOfDigits d ≤ daysInMonth 2025 (natOfDigits m)
  m_lo : 1 ≤ natOfDigits m
  m_hi : natOfDigits m ≤ 12
  ty_mem : ty = receiveLit ∨ ty = payDirectLit ∨ ty = duitnowLit
  nm_ne : nm ≠ []
  nm_chars : ∀ c ∈ nm, isNameChar c = true
  nm_head : ∀ c, nm.head? = some c → isPySpace c = false
  nm_last : ∀ c, nm.getLast? = some c → isPySpace c = false
  am_ne : amInt ≠ []
  am_digits : ∀ c ∈ amInt, c.isDigit = true
  f1_digit : f1.isDigit = true
  f2_digit : f2.isDigit = true
  bal_ne : balInt ≠ []
  bal_digits : ∀ c ∈ balInt, c.isDigit = true
  g1_digit : g1.isDigit = true
  g2_digit : g2.isDigit = true

/-!  List utilities. -/

theorem takeWhile_append_all {p : Char → Bool} {l : List Char} (r : List Char)
    (h : ∀ c ∈ l, p c = true) :
    (l ++ r).takeWhile p = l ++ r.takeWhile p := by
  induction l with
  | nil => simp
  | cons a t ih =>
    have ha : p a = true := h a (by simp)
    have ht := ih fun c hc => h c (by simp [hc])
    simp [List.takeWhile_cons, ha, ht]

theorem dropWhile_append_all {p : Char → Bool} {l : List Char} (r : List Char)
    (h : ∀ c ∈ l, p c = true) :
    (l ++ r).dropWhile p = r.dropWhile p := by
  induction l with
  | nil => simp
  | cons a t ih =>
    have ha : p a = true := h a (by simp)
    have ht := ih fun c hc => h c (by simp [hc])
    simp [List.dropWhile_cons, ha, ht]

theorem takeWhile_cons_neg {p : Char → Bool} {a : Char} (t : List Char)
    (h : p a = false) : (a :: t).takeWhile p = [] := by
  simp [List.takeWhile_cons, h]

theorem dropWhile_cons_neg {p : Char → Bool} {a : Char} (t : List Char)
    (h : p a = false) : (a :: t).dropWhile p = a :: t := by
  simp [List.dropWhile_cons, h]

theorem take_append_len {α : Type} {l : List α} (r : List α) (n : Nat) :
    (l ++ r).take (l.length + n) = l ++ r.take n := by
  induction l with
  | nil => simp
  | cons a t ih => simpa [Nat.succ_add] using ih

theorem drop_append_len {α : Type} {l : List α} (r : List α) (n : Nat) :
    (l ++ r).drop (l.length + n) = r.drop n := by
  induction l with
  | nil => simp
  | cons a t ih => simp [Nat.succ_add, ih]

/-!  Character class facts. -/

theorem isDigit_val {c : Char} (h : c.isDigit = true) :
    48 ≤ c.val.toNat ∧ c.val.toNat ≤ 57 := by
  simp only [Char.isDigit, decide_eq_true_eq, Bool.and_eq_true] at h
  obtain ⟨h1, h2⟩ := h
  exact ⟨h1, h2⟩

theorem isPySpace_iff {c : Char} :
    isPySpace c = true ↔
      (c = ' ' ∨ c = '\t' ∨ c = '\n' ∨ c = '\r' ∨ c = '\x0b' ∨ c = '\x0c') := by
  simp [isPySpace]

theorem isDigit_not_pySpace {c : Char} (h : c.isDigit = true) :
    isPySpace c = false := by
  rw [Bool.eq_false_iff]
  intro hs
  rcases isPySpace_iff.mp hs with h1 | h1 | h1 | h1 | h1 | h1 <;>
    (subst h1; exact absurd h (by decide))

theorem isNameChar_iff {c : Char} :
    isNameChar c = true ↔
      (('A' ≤ c ∧ c ≤ 'Z') ∨ isPySpace c = true ∨ c = '/') := by
  simp [isNameChar]

theorem isDigit_not_nameChar {c : Char} (h : c.isDigit = true) :
    isNameChar c = false := by
  obtain ⟨h1, h2⟩ := isDigit_val h
  rw [Bool.eq_false_iff]
  intro hs
  rcases isNameChar_iff.mp hs with ⟨hA, _⟩ | hsp | hc
  · have hle : ('A' : Char).val.toNat ≤ c.val.toNat := Char.le_def.mp hA
    have h65 : ('A' : Char).val.toNat = 65 := by decide
    omega
  · rw [isDigit_not_pySpace h] at hsp
    exact Bool.false_ne_true hsp
  · subst hc
    exact absurd h (by decide)

theorem isDigit_ne_dot {c : Char} (h : c.isDigit = true) : c ≠ '.' := by
  intro hc
  subst hc
  exact absurd h (by decide)

/-!  Matcher lemmas: forward evaluation and inversion. -/

theorem matchLit_append (l r : List Char) : matchLit l (l ++ r) = some r := by
  induction l with
  | nil => rfl
  | cons a t ih => simp [matchLit, ih]

theorem matchLit_some {l : List Char} :
    ∀ {s r : List Char}, matchLit l s = some r → s = l ++ r := by
  induction l with
  | nil =>
    intro s r h
    rw [matchLit] at h
    simp at h
    simp [h]
  | cons a t ih =>
    intro s r h
    cases s with
    | nil => rw [matchLit] at h; exact absurd h (by simp)
    | cons c cs =>
      rw [matchLit] at h
      split at h
      · rename_i hc
        subst hc
        simp [ih h]
      · exact absurd h (by simp)

theorem matchLit_head_ne {a c : Char} (l s : List Char) (h : c ≠ a) :
    matchLit (a :: l) (c :: s) = none := by
  simp [matchLit, h]

theorem lazyStar_of_some {α : Type} {k : List Char → Option α} {s : List Char} {a : α}
    (h : k s = some a) : lazyStar k s = some a := by
  cases s with
  | nil => rw [lazyStar]; exact h
  | cons c t => rw [lazyStar, h]

theorem lazyStar_cons_none {α : Type} {k : List Char → Option α} {c : Char}
    {t : List Char} (h : k (c :: t) = none) :
    lazyStar k (c :: t) = lazyStar k t := by
  rw [lazyStar, h]

theorem lazyStar_some {α : Type} {k : List Char → Option α} {s : List Char} {a : α}
    (h : lazyStar k s = some a) : ∃ t, t.length ≤ s.length ∧ k t = some a := by
  induction s with
  | nil => exact ⟨[], by simp, by rw [lazyStar] at h; exact h⟩
  | cons c t ih =>
    rw [lazyStar] at h
    cases hk : k (c :: t) with
    | some b => rw [hk] at h; exact ⟨c :: t, Nat.le_refl _, hk.trans h⟩
    | none =>
      rw [hk] at h
      obtain ⟨t', ht', hkt⟩ := ih h
      exact ⟨t', Nat.le_trans ht' (Nat.le_succ _), hkt⟩

theorem greedyPlusAux_some {α : Type} {s : List Char}
    {k : List Char → List Char → Option α} :
    ∀ {n : Nat} {a : α}, greedyPlusAux s k n = some a →
      ∃ j, 1 ≤ j ∧ j ≤ n ∧ k (s.take j) (s.drop j) = some a := by
  intro n
  induction n with
  | zero => intro a h; rw [greedyPlusAux] at h; exact absurd h (by simp)
  | succ m ih =>
    intro a h
    rw [greedyPlusAux] at h
    cases hk : k (s.take (m + 1)) (s.drop (m + 1)) with
    | some b =>
      rw [hk] at h
      exact ⟨m + 1, by omega, Nat.le_refl _, hk.trans h⟩
    | none =>
      rw [hk] at h
      obtain ⟨j, h1, h2, h3⟩ := ih h
      exact ⟨j, h1, by omega, h3⟩

theorem length_takeWhile_le' {p : Char → Bool} (s : List Char) :
    (s.takeWhile p).length ≤ s.length := by
  induction s with
  | nil => simp
  | cons a t ih =>
    rw [List.takeWhile_cons]
    split
    · simpa using ih
    · simp

theorem greedyPlus_some {α : Type} {p : Char → Bool}
    {k : List Char → List Char → Option α} {s : List Char} {a : α}
    (h : greedyPlus p k s = some a) :
    ∃ j, 1 ≤ j ∧ j ≤ s.length ∧ k (s.take j) (s.drop j) = some a := by
  obtain ⟨j, h1, h2, h3⟩ := greedyPlusAux_some h
  exact ⟨j, h1, Nat.le_trans h2 (length_takeWhile_le' s), h3⟩

theorem greedyPlusAux_step {α : Type} {s : List Char}
    {k : List Char → List Char → Option α} {n : Nat}
    (h : k (s.take (n + 1)) (s.drop (n + 1)) = none) :
    greedyPlusAux s k (n + 1) = greedyPlusAux s k n := by
  rw [greedyPlusAux, h]

theorem greedyPlusAux_hit {α : Type} {s : List Char}
    {k : List Char → List Char → Option α} {n : Nat} {a : α}
    (h : k (s.take (n + 1)) (s.drop (n + 1)) = some a) :
    greedyPlusAux s k (n + 1) = some a := by
  rw [greedyPlusAux, h]

theorem digits12_some {α : Type} {k : List Char → List Char → Option α} :
    ∀ {s : List Char} {a : α}, digits12 k s = some a →
      ∃ pre rest, rest.length + 1 ≤ s.length ∧ k pre rest = some a := by
  intro s a h
  match s with
  | [] => rw [digits12] at h; exact absurd h (by simp)
  | [c] =>
    rw [digits12] at h
    split at h
    · exact ⟨[c], [], by simp, h⟩
    · exact absurd h (by simp)
  | c :: b :: t =>
    rw [digits12] at h
    split at h
    · split at h
      · cases hk : k [c, b] t with
        | some v => rw [hk] at h; exact ⟨[c, b], t, by simp, hk.trans h⟩
        | none => rw [hk] at h; exact ⟨[c], b :: t, by simp, h⟩
      · exact ⟨[c], b :: t, by simp, h⟩
    · exact absurd h (by simp)

theorem twoDigits_some :
    ∀ {s pre rest : List Char}, twoDigits s = some (pre, rest) →
      s = pre ++ rest ∧ pre.length = 2 := by
  intro s pre rest h
  match s with
  | [] => simp [twoDigits] at h
  | [c] => simp [twoDigits] at h
  | a :: b :: t =>
    rw [twoDigits] at h
    split at h
    · simp at h
      obtain ⟨h1, h2⟩ := h
      subst h1; subst h2
      exact ⟨rfl, rfl⟩
    · exact absurd h (by simp)

theorem matchType_some {s ty r : List Char} (h : matchType s = some (ty, r)) :
    (ty = receiveLit ∨ ty = payDirectLit ∨ ty = duitnowLit) ∧ s = ty ++ r := by
  unfold matchType at h
  cases h1 : matchLit receiveLit s with
  | some r1 =>
    rw [h1] at h
    simp at h
    obtain ⟨rfl, rfl⟩ := h
    exact ⟨Or.inl rfl, matchLit_some h1⟩
  | none =>
    rw [h1] at h
    cases h2 : matchLit payDirectLit s with
    | some r2 =>
      rw [h2] at h
      simp at h
      obtain ⟨rfl, rfl⟩ := h
      exact ⟨Or.inr (Or.inl rfl), matchLit_some h2⟩
    | none =>
      rw [h2] at h
      cases h3 : matchLit duitnowLit s with
      | some r3 =>
        rw [h3] at h
        simp at h
        obtain ⟨rfl, rfl⟩ := h
        exact ⟨Or.inr (Or.inr rfl), matchLit_some h3⟩
      | none => rw [h3] at h; exact absurd h (by simp)

theorem matchType_append {ty : List Char} (rest : List Char)
    (hty : ty = receiveLit ∨ ty = payDirectLit ∨ ty = duitnowLit) :
    matchType (ty ++ rest) = some (ty, rest) := by
  have e1 : receiveLit = 'R' :: "eceive from Wallet".toList := rfl
  have e2 : payDirectLit = 'P' :: "ayDirect Payment".toList := rfl
  have e3 : duitnowLit = 'D' :: "UITNOW_RECEI".toList := rfl
  rcases hty with rfl | rfl | rfl
  · unfold matchType
    rw [matchLit_append]
  · unfold matchType
    have hpd : payDirectLit ++ rest = 'P' :: ("ayDirect Payment".toList ++ rest) := rfl
    rw [hpd, e1, matchLit_head_ne _ _ (by decide), ← hpd, matchLit_append]
  · unfold matchType
    have hdn : duitnowLit ++ rest = 'D' :: ("UITNOW_RECEI".toList ++ rest) := rfl
    rw [hdn, e1, matchLit_head_ne _ _ (by decide), e2,
      matchLit_head_ne _ _ (by decide), ← hdn, matchLit_append]

theorem matchType_cons_none {c : Char} (t : List Char)
    (h1 : c ≠ 'R') (h2 : c ≠ 'P') (h3 : c ≠ 'D') :
    matchType (c :: t) = none := by
  unfold matchType
  have e1 : receiveLit = 'R' :: "eceive from Wallet".toList := rfl
  have e2 : payDirectLit = 'P' :: "ayDirect Payment".toList := rfl
  have e3 : duitnowLit = 'D' :: "UITNOW_RECEI".toList := rfl
  rw [e1, matchLit_head_ne _ _ h1, e2, matchLit_head_ne _ _ h2, e3,
    matchLit_head_ne _ _ h3]

theorem matchAmountTail_some {gD gT : List Char} {gN : Option (List Char)}
    {s : List Char} {g : MatchGroups} {r : List Char}
    (h : matchAmountTail gD gT gN s = some (g, r)) :
    g.date = gD ∧ g.type = gT ∧ g.nameG = gN := by
  unfold matchAmountTail at h
  split at h
  · exact absurd h (by simp)
  · obtain ⟨j, _, _, h2⟩ := greedyPlus_some h
    split at h2
    · split at h2
      · exact absurd h2 (by simp)
      · obtain ⟨j2, _, _, h3⟩ := greedyPlus_some h2
        split at h3
        · exact absurd h3 (by simp)
        · obtain ⟨j3, _, _, h5⟩ := greedyPlus_some h3
          split at h5
          · split at h5
            · exact absurd h5 (by simp)
            · simp at h5
              obtain ⟨hg, _⟩ := h5
              subst hg
              exact ⟨rfl, rfl, rfl⟩
          · exact absurd h5 (by simp)
    · exact absurd h2 (by simp)

theorem matchAfterType_some {gD gT : List Char} {s : List Char} {g : MatchGroups}
    {r : List Char} (h : matchAfterType gD gT s = some (g, r)) :
    g.date = gD ∧ g.type = gT := by
  unfold matchAfterType at h
  obtain ⟨t, _, h1⟩ := lazyStar_some h
  split at h1
  · rename_i val hval
    obtain ⟨g', r'⟩ := val
    simp at h1
    obtain ⟨hg, _⟩ := h1
    subst hg
    obtain ⟨j, _, _, h2⟩ := greedyPlus_some hval
    obtain ⟨j2, _, _, h3⟩ := greedyPlus_some h2
    obtain ⟨t2, _, h4⟩ := lazyStar_some h3
    obtain ⟨hd, ht, _⟩ := matchAmountTail_some h4
    exact ⟨hd, ht⟩
  · obtain ⟨j, _, _, h2⟩ := greedyPlus_some h1
    obtain ⟨t2, _, h3⟩ := lazyStar_some h2
    obtain ⟨hd, ht, _⟩ := matchAmountTail_some h3
    exact ⟨hd, ht⟩

theorem matchFull_some_type {s : List Char} {g : MatchGroups} {r : List Char}
    (h : matchFull s = some (g, r)) :
    g.type = receiveLit ∨ g.type = payDirectLit ∨ g.type = duitnowLit := by
  unfold matchFull at h
  obtain ⟨d1, s1, _, h1⟩ := digits12_some h
  split at h1
  · obtain ⟨d2, s3, _, h2⟩ := digits12_some h1
    split at h2
    · exact absurd h2 (by simp)
    · obtain ⟨t, _, h3⟩ := lazyStar_some h2
      split at h3
      · rename_i ty s6 hmt
        have hty := (matchType_some hmt).1
        have hf := (matchAfterType_some h3).2
        rw [hf]
        exact hty
      · exact absurd h3 (by simp)
  · exact absurd h1 (by simp)

theorem findAllAux_succ (fuel : Nat) (s : List Char) :
    findAllAux (fuel + 1) s =
      match matchFull s with
      | some (g, rest) => g :: findAllAux fuel rest
      | none =>
        match s with
        | [] => []
        | _ :: t => findAllAux fuel t := rfl

theorem findAllAux_mem {g : MatchGroups} :
    ∀ {fuel : Nat} {s : List Char}, g ∈ findAllAux fuel s →
      ∃ t r, matchFull t = some (g, r) := by
  intro fuel
  induction fuel with
  | zero => intro s h; exact absurd h (by rw [show findAllAux 0 s = [] from rfl]; simp)
  | succ n ih =>
    intro s h
    rw [findAllAux_succ] at h
    split at h
    · rename_i g' rest hm
      rcases List.mem_cons.mp h with rfl | hmem
      · exact ⟨s, rest, hm⟩
      · exact ih hmem
    · split at h
      · simp at h
      · exact ih h

theorem findAll_type {s : List Char} {g : MatchGroups} (h : g ∈ findAll s) :
    g.type = receiveLit ∨ g.type = payDirectLit ∨ g.type = duitnowLit := by
  obtain ⟨t, r, hm⟩ := findAllAux_mem h
  exact matchFull_some_type hm

theorem parseMoney_nonneg (l : List Char) : 0 ≤ parseMoney l := by
  unfold parseMoney
  exact add_nonneg (Nat.cast_nonneg _)
    (div_nonneg (Nat.cast_nonneg _) (by positivity))

/-!  `str.strip` lemmas. -/

theorem dropWhile_head_false {p : Char → Bool} :
    ∀ {l : List Char} {c : Char}, (l.dropWhile p).head? = some c → p c = false := by
  intro l
  induction l with
  | nil => intro c h; simp at h
  | cons a t ih =>
    intro c h
    rw [List.dropWhile_cons] at h
    split at h
    · exact ih h
    · rename_i hp
      simp at h
      subst h
      exact Bool.eq_false_iff.mpr hp

theorem dropWhile_eq_self {p : Char → Bool} {l : List Char}
    (h : ∀ c, l.head? = some c → p c = false) : l.dropWhile p = l := by
  cases l with
  | nil => rfl
  | cons a t => exact dropWhile_cons_neg t (h a rfl)

theorem getLast?_dropWhile {p : Char → Bool} {l : List Char}
    (h : l.dropWhile p ≠ []) : (l.dropWhile p).getLast? = l.getLast? := by
  conv_rhs => rw [← List.takeWhile_append_dropWhile p l]
  rw [List.getLast?_append_of_ne_nil _ h]

theorem pyStripList_head {l : List Char} {c : Char}
    (h : (pyStripList l).head? = some c) : isPySpace c = false := by
  unfold pyStripList at h
  rw [List.head?_reverse] at h
  by_cases hne : (l.dropWhile isPySpace).reverse.dropWhile isPySpace = []
  · rw [hne] at h; simp at h
  · rw [getLast?_dropWhile hne, List.getLast?_reverse] at h
    exact dropWhile_head_false h

theorem pyStripList_last {l : List Char} {c : Char}
    (h : (pyStripList l).getLast? = some c) : isPySpace c = false := by
  unfold pyStripList at h
  rw [List.getLast?_reverse] at h
  exact dropWhile_head_false h

theorem pyStripList_eq_self {l : List Char}
    (h1 : ∀ c, l.head? = some c → isPySpace c = false)
    (h2 : ∀ c, l.getLast? = some c → isPySpace c = false) :
    pyStripList l = l := by
  unfold pyStripList
  rw [dropWhile_eq_self h1]
  rw [dropWhile_eq_self (fun c hc => h2 c (by rwa [List.head?_reverse] at hc))]
  exact List.reverse_reverse l

theorem pyStripList_idem (l : List Char) :
    pyStripList (pyStripList l) = pyStripList l :=
  pyStripList_eq_self (fun _ h => pyStripList_head h)
    (fun _ h => pyStripList_last h)

theorem pyStripList_space_cons {nm : List Char}
    (h1 : ∀ c, nm.head? = some c → isPySpace c = false)
    (h2 : ∀ c, nm.getLast? = some c → isPySpace c = false) :
    pyStripList (' ' :: nm) = nm := by
  unfold pyStripList
  rw [List.dropWhile_cons, if_pos (by decide)]
  rw [dropWhile_eq_self h1]
  rw [dropWhile_eq_self (fun c hc => h2 c (by rwa [List.head?_reverse] at hc))]
  exact List.reverse_reverse nm

/-!  Normalizer lemmas. -/

theorem ebind_err {α β : Type} (e : String) (g : α → Except String β) :
    (Except.error e >>= g) = Except.error e := rfl

theorem ebind_ok {α β : Type} (a : α) (g : α → Except String β) :
    (Except.ok a >>= g) = g a := rfl

/-- What one successfully normalized row looks like. -/
def normSpec (r : RawTransaction) (dd : Date) : NormalizedTransaction :=
  { date := dd, type := r.type, name := r.name, amount := r.amount,
    balance := r.balance,
    amount_signed := if r.type ∈ credits then r.amount else -r.amount }

theorem normalizeRow_ok {r : RawTransaction} {n : NormalizedTransaction}
    (h : normalizeRow r = Except.ok n) :
    ∃ dd, parseDate r.date = some dd ∧ n = normSpec r dd := by
  unfold normalizeRow at h
  cases hpd : parseDate r.date with
  | none => rw [hpd] at h; exact absurd h (by simp)
  | some dd =>
    rw [hpd] at h
    simp at h
    exact ⟨dd, rfl, h.symm⟩

theorem mapM_normalizeRow_ok :
    ∀ {txns : List RawTransaction} {out : List NormalizedTransaction},
      List.mapM normalizeRow txns = Except.ok out →
      out.length = txns.length ∧
      ∀ p ∈ txns.zip out, ∃ dd, parseDate p.1.date = some dd ∧ p.2 = normSpec p.1 dd := by
  intro txns
  induction txns with
  | nil =>
    intro out h
    rw [List.mapM_nil] at h
    simp only [pure, Except.pure] at h
    simp at h
    subst h
    exact ⟨rfl, by simp⟩
  | cons r rest ih =>
    intro out h
    rw [List.mapM_cons] at h
    cases hr : normalizeRow r with
    | error e => rw [hr, ebind_err] at h; simp at h
    | ok n =>
      rw [hr, ebind_ok] at h
      cases hrest : List.mapM normalizeRow rest with
      | error e => rw [hrest, ebind_err] at h; simp at h
      | ok ns =>
        rw [hrest, ebind_ok] at h
        simp only [pure, Except.pure] at h
        simp at h
        obtain ⟨hlen, hall⟩ := ih hrest
        subst h
        refine ⟨by simp [hlen], ?_⟩
        intro p hp
        rw [List.zip_cons_cons] at hp
        rcases List.mem_cons.mp hp with rfl | hmem
        · exact normalizeRow_ok hr
        · exact hall p hmem

theorem mapM_normalizeRow_isOk :
    ∀ txns : List RawTransaction,
      (∃ out, List.mapM normalizeRow txns = Except.ok out) ↔
        ∀ r ∈ txns, ∃ dd, parseDate r.date = some dd := by
  intro txns
  induction txns with
  | nil =>
    constructor
    · intro _ r hr; simp at hr
    · intro _
      refine ⟨[], ?_⟩
      rw [List.mapM_nil]
      rfl
  | cons r rest ih =>
    constructor
    · rintro ⟨out, h⟩ r' hr'
      rw [List.mapM_cons] at h
      cases hr : normalizeRow r with
      | error e => rw [hr, ebind_err] at h; simp at h
      | ok n =>
        rw [hr, ebind_ok] at h
        cases hrest : List.mapM normalizeRow rest with
        | error e => rw [hrest, ebind_err] at h; simp at h
        | ok ns =>
          rcases List.mem_cons.mp hr' with rfl | hmem
          · obtain ⟨dd, hdd, _⟩ := normalizeRow_ok hr
            exact ⟨dd, hdd⟩
          · exact (ih.mp ⟨ns, hrest⟩) r' hmem
    · intro hall
      obtain ⟨dd, hdd⟩ := hall r (by simp)
      obtain ⟨ns, hns⟩ := ih.mpr fun r' hr' => hall r' (by simp [hr'])
      refine ⟨normSpec r dd :: ns, ?_⟩
      rw [List.mapM_cons]
      have hr : normalizeRow r = Except.ok (normSpec r dd) := by
        unfold normalizeRow normSpec
        rw [hdd]
      rw [hr, ebind_ok, hns, ebind_ok]
      rfl

theorem preprocess_ok_spec {txns : List RawTransaction}
    {out : List NormalizedTransaction}
    (h : preprocess_transactions txns = Except.ok out) :
    out.length = txns.length ∧
    ∀ p ∈ txns.zip out, ∃ dd, parseDate p.1.date = some dd ∧ p.2 = normSpec p.1 dd := by
  unfold preprocess_transactions at h
  split at h
  · rename_i he
    subst he
    simp at h
    subst h
    exact ⟨rfl, by simp⟩
  · exact mapM_normalizeRow_ok h

/-!  Date parser correctness. -/

theorem takeWhile_eq_self_of_all {p : Char → Bool} {l : List Char}
    (h : ∀ c ∈ l, p c = true) : l.takeWhile p = l := by
  have := takeWhile_append_all (p := p) [] h
  simpa using this

theorem dropWhile_eq_nil_of_all {p : Char → Bool} {l : List Char}
    (h : ∀ c ∈ l, p c = true) : l.dropWhile p = [] := by
  have := dropWhile_append_all (p := p) [] h
  simpa using this

theorem parseDateChars_some_conform {t : List Char} {dd : Date}
    (h : parseDateChars t = some dd) : ConformsDMYInRangeList t := by
  unfold parseDateChars at h
  split at h
  · exact absurd h (by simp)
  · rename_i hlen1
    split at h
    · rename_i s2 heq1
      split at h
      · exact absurd h (by simp)
      · rename_i hlen2
        split at h
        · rename_i s4 heq2
          split at h
          · rename_i hys
            split at h
            · rename_i hv
              split at h
              · rename_i hv2
                obtain ⟨hy4, hs5⟩ := hys
                refine ⟨t.takeWhile Char.isDigit, s2.takeWhile Char.isDigit,
                  s4.takeWhile Char.isDigit, ?_, ?_, ?_, ?_, ?_, ?_, ?_, hy4, ?_,
                  hv.1, hv.2.1, hv.2.2.1, hv.2.2.2.1, hv.2.2.2.2, hv2.1, hv2.2⟩
                · have hs4eq : s4 = s4.takeWhile Char.isDigit := by
                    conv_lhs => rw [← List.takeWhile_append_dropWhile Char.isDigit s4]
                    rw [hs5, List.append_nil]
                  have h2 : s2 = s2.takeWhile Char.isDigit ++
                      ('/' :: s4.takeWhile Char.isDigit) := by
                    conv_lhs => rw [← List.takeWhile_append_dropWhile Char.isDigit s2]
                    rw [heq2, ← hs4eq]
                  conv_lhs => rw [← List.takeWhile_append_dropWhile Char.isDigit t]
                  rw [heq1]
                  conv_lhs => rw [h2]
                · intro hnil
                  rw [hnil] at hlen1
                  simp at hlen1
                · omega
                · intro c hc; exact List.mem_takeWhile_imp hc
                · intro hnil
                  rw [hnil] at hlen2
                  simp at hlen2
                · omega
                · intro c hc; exact List.mem_takeWhile_imp hc
                · intro c hc; exact List.mem_takeWhile_imp hc
              · exact absurd h (by simp)
            · exact absurd h (by simp)
          · exact absurd h (by simp)
        · exact absurd h (by simp)
    · exact absurd h (by simp)

theorem daysInMonth_le_31 (y m : Nat) : daysInMonth y m ≤ 31 := by
  unfold daysInMonth
  split
  · split <;> omega
  · split <;> omega

theorem parseDateChars_layout {ds ms ys : List Char}
    (hds0 : ds ≠ []) (hds2 : ds.length ≤ 2) (hdsd : ∀ c ∈ ds, c.isDigit = true)
    (hms0 : ms ≠ []) (hms2 : ms.length ≤ 2) (hmsd : ∀ c ∈ ms, c.isDigit = true)
    (hys4 : ys.length = 4) (hysd : ∀ c ∈ ys, c.isDigit = true)
    (hy1 : 1 ≤ natOfDigits ys)
    (hm1 : 1 ≤ natOfDigits ms) (hm12 : natOfDigits ms ≤ 12)
    (hd1 : 1 ≤ natOfDigits ds)
    (hdm : natOfDigits ds ≤ daysInMonth (natOfDigits ys) (natOfDigits ms))
    (hb1 : 16770922 ≤ natOfDigits ys * 10000 + natOfDigits ms * 100 +
      natOfDigits ds)
    (hb2 : natOfDigits ys * 10000 + natOfDigits ms * 100 +
      natOfDigits ds ≤ 22620411) :
    parseDateChars (ds ++ ('/' :: (ms ++ ('/' :: ys)))) =
      some ⟨natOfDigits ys, natOfDigits ms, natOfDigits ds⟩ := by
  unfold parseDateChars
  have hslash : Char.isDigit '/' = false := by decide
  have e1 : (ds ++ ('/' :: (ms ++ ('/' :: ys)))).takeWhile Char.isDigit = ds := by
    rw [takeWhile_append_all _ hdsd]
    rw [takeWhile_cons_neg _ hslash, List.append_nil]
  have e2 : (ds ++ ('/' :: (ms ++ ('/' :: ys)))).dropWhile Char.isDigit =
      '/' :: (ms ++ ('/' :: ys)) := by
    rw [dropWhile_append_all _ hdsd]
    rw [dropWhile_cons_neg _ hslash]
  have e3 : (ms ++ ('/' :: ys)).takeWhile Char.isDigit = ms := by
    rw [takeWhile_append_all _ hmsd]
    rw [takeWhile_cons_neg _ hslash, List.append_nil]
  have e4 : (ms ++ ('/' :: ys)).dropWhile Char.isDigit = '/' :: ys := by
    rw [dropWhile_append_all _ hmsd]
    rw [dropWhile_cons_neg _ hslash]
  have e5 : ys.takeWhile Char.isDigit = ys := takeWhile_eq_self_of_all hysd
  have e6 : ys.dropWhile Char.isDigit = [] := dropWhile_eq_nil_of_all hysd
  rw [e1, e2]
  have hlen1 : ¬(ds.length = 0 ∨ 2 < ds.length) := by
    have : ds.length ≠ 0 := fun hc => hds0 (List.length_eq_zero.mp hc)
    omega
  rw [if_neg hlen1]
  simp only []
  rw [e3, e4]
  have hlen2 : ¬(ms.length = 0 ∨ 2 < ms.length) := by
    have : ms.length ≠ 0 := fun hc => hms0 (List.length_eq_zero.mp hc)
    omega
  rw [if_neg hlen2]
  simp only []
  rw [e5, e6]
  rw [if_pos ⟨hys4, rfl⟩]
  rw [if_pos ⟨hy1, hm1, hm12, hd1, hdm⟩]
  rw [if_pos ⟨hb1, hb2⟩]

/-!  Forward evaluation of the matcher on a whitespace-separated layout. -/

theorem greedyPlus_none_of_head {α : Type} {p : Char → Bool}
    {k : List Char → List Char → Option α} {s : List Char}
    (h : s.takeWhile p = []) : greedyPlus p k s = none := by
  unfold greedyPlus
  rw [h]
  rfl

theorem greedyPlus_hit {α : Type} {p : Char → Bool}
    {k : List Char → List Char → Option α} {pre suf : List Char} {a : α}
    (hpre : ∀ c ∈ pre, p c = true) (hne : pre ≠ [])
    (hsuf : suf.takeWhile p = [])
    (hk : k pre suf = some a) :
    greedyPlus p k (pre ++ suf) = some a := by
  unfold greedyPlus
  have htw : (pre ++ suf).takeWhile p = pre := by
    rw [takeWhile_append_all _ hpre, hsuf, List.append_nil]
  rw [htw]
  obtain ⟨c, pre', rfl⟩ : ∃ c pre', pre = c :: pre' := by
    cases pre with
    | nil => exact absurd rfl hne
    | cons c pre' => exact ⟨c, pre', rfl⟩
  have hlen : (c :: pre').length = pre'.length + 1 := by simp
  rw [hlen]
  apply greedyPlusAux_hit
  have ht : ((c :: pre') ++ suf).take (pre'.length + 1) = c :: pre' := by
    have := take_append_len (l := c :: pre') suf 0
    simpa using this
  have hd : ((c :: pre') ++ suf).drop (pre'.length + 1) = suf := by
    have := drop_append_len (l := c :: pre') suf 0
    simpa using this
  rw [ht, hd]
  exact hk

theorem matchAmountTail_layout {gD gT : List Char} {gN : Option (List Char)}
    {amInt balInt : List Char} {f1 f2 g1 g2 : Char}
    (hamne : amInt ≠ []) (hamd : ∀ c ∈ amInt, c.isDigit = true)
    (hf1 : f1.isDigit = true) (hf2 : f2.isDigit = true)
    (hbalne : balInt ≠ []) (hbald : ∀ c ∈ balInt, c.isDigit = true)
    (hg1 : g1.isDigit = true) (hg2 : g2.isDigit = true) :
    matchAmountTail gD gT gN
      ('R' :: 'M' :: (amInt ++ '.' :: f1 :: f2 :: ' ' :: 'R' :: 'M' ::
        (balInt ++ ['.', g1, g2]))) =
      some (⟨gD, gT, gN, amInt ++ '.' :: [f1, f2],
            balInt ++ '.' :: [g1, g2]⟩, []) := by
  have hkBal : (match twoDigits [g1, g2] with
      | none => none
      | some (balFrac, s9) =>
        some (MatchGroups.mk gD gT gN (amInt ++ '.' :: [f1, f2])
              (balInt ++ '.' :: balFrac), s9)) =
      some (MatchGroups.mk gD gT gN (amInt ++ '.' :: [f1, f2])
            (balInt ++ '.' :: [g1, g2]), ([] : List Char)) := by
    rw [show twoDigits [g1, g2] =
        if g1.isDigit ∧ g2.isDigit then some ([g1, g2], ([] : List Char))
        else none from rfl,
      if_pos ⟨hg1, hg2⟩]
  have hBal : greedyPlus Char.isDigit (fun balInt' s7 =>
      match s7 with
      | '.' :: s8 =>
        match twoDigits s8 with
        | none => none
        | some (balFrac, s9) =>
          some (MatchGroups.mk gD gT gN (amInt ++ '.' :: [f1, f2])
                (balInt' ++ '.' :: balFrac), s9)
      | _ => none) (balInt ++ ['.', g1, g2]) =
      some (MatchGroups.mk gD gT gN (amInt ++ '.' :: [f1, f2])
            (balInt ++ '.' :: [g1, g2]), []) :=
    greedyPlus_hit hbald hbalne (takeWhile_cons_neg _ (by decide)) hkBal
  have hkAm : (match twoDigits (f1 :: f2 :: ' ' :: 'R' :: 'M' ::
        (balInt ++ ['.', g1, g2])) with
      | none => none
      | some (amFrac, s4) =>
        greedyPlus isPySpace (fun _ s5 =>
          match matchLit ['R', 'M'] s5 with
          | none => none
          | some s6 =>
            greedyPlus Char.isDigit (fun balInt' s7 =>
              match s7 with
              | '.' :: s8 =>
                match twoDigits s8 with
                | none => none
                | some (balFrac, s9) =>
                  some (MatchGroups.mk gD gT gN (amInt ++ '.' :: amFrac)
                        (balInt' ++ '.' :: balFrac), s9)
              | _ => none) s6) s4) =
      some (MatchGroups.mk gD gT gN (amInt ++ '.' :: [f1, f2])
            (balInt ++ '.' :: [g1, g2]), ([] : List Char)) := by
    rw [show twoDigits (f1 :: f2 :: ' ' :: 'R' :: 'M' ::
          (balInt ++ ['.', g1, g2])) =
        if f1.isDigit ∧ f2.isDigit then
          some ([f1, f2], ' ' :: 'R' :: 'M' :: (balInt ++ ['.', g1, g2]))
        else none from rfl,
      if_pos ⟨hf1, hf2⟩]
    show greedyPlus isPySpace _
      ([' '] ++ ('R' :: 'M' :: (balInt ++ ['.', g1, g2]))) = _
    exact greedyPlus_hit (by decide) (by decide)
      (takeWhile_cons_neg _ (by decide)) hBal
  show greedyPlus Char.isDigit _
    (amInt ++ ('.' :: f1 :: f2 :: ' ' :: 'R' :: 'M' ::
      (balInt ++ ['.', g1, g2]))) = _
  exact greedyPlus_hit hamd hamne (takeWhile_cons_neg _ (by decide)) hkAm

theorem greedyPlusAux_step2 {α : Type} {s : List Char}
    {k : List Char → List Char → Option α} {n : Nat} {pre rest : List Char}
    (ht : s.take (n + 1) = pre) (hd : s.drop (n + 1) = rest)
    (h : k pre rest = none) :
    greedyPlusAux s k (n + 1) = greedyPlusAux s k n := by
  rw [greedyPlusAux, ht, hd, h]

theorem greedyPlusAux_hit2 {α : Type} {s : List Char}
    {k : List Char → List Char → Option α} {n : Nat} {pre rest : List Char}
    {a : α} (ht : s.take (n + 1) = pre) (hd : s.drop (n + 1) = rest)
    (h : k pre rest = some a) :
    greedyPlusAux s k (n + 1) = some a := by
  rw [greedyPlusAux, ht, hd, h]

/-- Greedy `+` backtracking, three characters given back: the maximal
run is `pre ++ [c1, c2, c3]`; the continuation rejects the three longest
prefixes and accepts at `pre`. -/
theorem greedyPlus_skip3_hit {α : Type} {p : Char → Bool}
    {k : List Char → List Char → Option α} {pre : List Char} {c1 c2 c3 : Char}
    {suf : List Char} {a : α}
    (hpre : ∀ c ∈ pre, p c = true) (hne : pre ≠ [])
    (hc1 : p c1 = true) (hc2 : p c2 = true) (hc3 : p c3 = true)
    (hsuf : suf.takeWhile p = [])
    (h3 : k (pre ++ [c1, c2, c3]) suf = none)
    (h2 : k (pre ++ [c1, c2]) (c3 :: suf) = none)
    (h1 : k (pre ++ [c1]) (c2 :: c3 :: suf) = none)
    (h0 : k pre (c1 :: c2 :: c3 :: suf) = some a) :
    greedyPlus p k (pre ++ (c1 :: c2 :: c3 :: suf)) = some a := by
  have htw : (pre ++ (c1 :: c2 :: c3 :: suf)).takeWhile p =
      pre ++ [c1, c2, c3] := by
    rw [takeWhile_append_all _ hpre]
    rw [List.takeWhile_cons, if_pos hc1, List.takeWhile_cons, if_pos hc2,
      List.takeWhile_cons, if_pos hc3, hsuf]
  have t3 : (pre ++ (c1 :: c2 :: c3 :: suf)).take (pre.length + 3) =
      pre ++ [c1, c2, c3] := by
    rw [take_append_len]
    rfl
  have d3 : (pre ++ (c1 :: c2 :: c3 :: suf)).drop (pre.length + 3) = suf := by
    rw [drop_append_len]
    rfl
  have t2 : (pre ++ (c1 :: c2 :: c3 :: suf)).take (pre.length + 2) =
      pre ++ [c1, c2] := by
    rw [take_append_len]
    rfl
  have d2 : (pre ++ (c1 :: c2 :: c3 :: suf)).drop (pre.length + 2) =
      c3 :: suf := by
    rw [drop_append_len]
    rfl
  have t1 : (pre ++ (c1 :: c2 :: c3 :: suf)).take (pre.length + 1) =
      pre ++ [c1] := by
    rw [take_append_len]
    rfl
  have d1 : (pre ++ (c1 :: c2 :: c3 :: suf)).drop (pre.length + 1) =
      c2 :: c3 :: suf := by
    rw [drop_append_len]
    rfl
  have t0 : (pre ++ (c1 :: c2 :: c3 :: suf)).take pre.length = pre := by
    have h := take_append_len (l := pre) (c1 :: c2 :: c3 :: suf) 0
    simpa using h
  have d0 : (pre ++ (c1 :: c2 :: c3 :: suf)).drop pre.length =
      c1 :: c2 :: c3 :: suf := by
    have h := drop_append_len (l := pre) (c1 :: c2 :: c3 :: suf) 0
    simpa using h
  obtain ⟨c0, pre', rfl⟩ : ∃ c0 pre', pre = c0 :: pre' := by
    cases pre with
    | nil => exact absurd rfl hne
    | cons c0 pre' => exact ⟨c0, pre', rfl⟩
  unfold greedyPlus
  rw [htw]
  rw [show ((c0 :: pre') ++ ([c1, c2, c3] : List Char)).length =
      (c0 :: pre').length + 3 from by simp]
  exact (greedyPlusAux_step2 t3 d3 h3).trans
    ((greedyPlusAux_step2 t2 d2 h2).trans
      ((greedyPlusAux_step2 t1 d1 h1).trans
        (greedyPlusAux_hit2 t0 d0 h0)))

theorem matchAfterType_layout {gD ty nm amInt balInt : List Char}
    {f1 f2 g1 g2 : Char}
    (_hnm_ne : nm ≠ []) (hnm : ∀ c ∈ nm, isNameChar c = true)
    (hamne : amInt ≠ []) (hamd : ∀ c ∈ amInt, c.isDigit = true)
    (hf1 : f1.isDigit = true) (hf2 : f2.isDigit = true)
    (hbalne : balInt ≠ []) (hbald : ∀ c ∈ balInt, c.isDigit = true)
    (hg1 : g1.isDigit = true) (hg2 : g2.isDigit = true) :
    matchAfterType gD ty
      ((' ' :: nm) ++ (' ' :: 'R' :: 'M' ::
        (amInt ++ '.' :: f1 :: f2 :: ' ' :: 'R' :: 'M' ::
          (balInt ++ ['.', g1, g2])))) =
      some (MatchGroups.mk gD ty (some (' ' :: nm))
        (amInt ++ '.' :: [f1, f2]) (balInt ++ '.' :: [g1, g2]), []) := by
  obtain ⟨a0, amRest, rfl⟩ : ∃ a0 amRest, amInt = a0 :: amRest := by
    cases amInt with
    | nil => exact absurd rfl hamne
    | cons a0 amRest => exact ⟨a0, amRest, rfl⟩
  have ha0 : a0.isDigit = true := hamd a0 (by simp)
  have hDSname : (((a0 :: amRest) ++ '.' :: f1 :: f2 :: ' ' :: 'R' :: 'M' ::
      (balInt ++ ['.', g1, g2]))).takeWhile isNameChar = [] :=
    takeWhile_cons_neg _ (isDigit_not_nameChar ha0)
  have hDSsp : (((a0 :: amRest) ++ '.' :: f1 :: f2 :: ' ' :: 'R' :: 'M' ::
      (balInt ++ ['.', g1, g2]))).takeWhile isPySpace = [] :=
    takeWhile_cons_neg _ (isDigit_not_pySpace ha0)
  have hallname : ∀ c ∈ ' ' :: nm, isNameChar c = true := by
    intro c hc
    rcases List.mem_cons.mp hc with rfl | hc2
    · decide
    · exact hnm c hc2
  unfold matchAfterType
  apply lazyStar_of_some
  have h0 : greedyPlus isPySpace (fun _ s3 =>
      lazyStar (fun s4 => matchAmountTail gD ty (some (' ' :: nm)) s4) s3)
      (' ' :: 'R' :: 'M' :: ((a0 :: amRest) ++ '.' :: f1 :: f2 :: ' ' :: 'R' ::
        'M' :: (balInt ++ ['.', g1, g2]))) =
      some (MatchGroups.mk gD ty (some (' ' :: nm))
        ((a0 :: amRest) ++ '.' :: [f1, f2]) (balInt ++ '.' :: [g1, g2]), []) := by
    show greedyPlus isPySpace _
      ([' '] ++ ('R' :: 'M' :: ((a0 :: amRest) ++ '.' :: f1 :: f2 :: ' ' ::
        'R' :: 'M' :: (balInt ++ ['.', g1, g2])))) = _
    exact greedyPlus_hit (by decide) (by decide)
      (takeWhile_cons_neg _ (by decide))
      (lazyStar_of_some (matchAmountTail_layout hamne hamd hf1 hf2
        hbalne hbald hg1 hg2))
  have hgp : greedyPlus isNameChar (fun nm' s2 =>
      greedyPlus isPySpace (fun _ s3 =>
        lazyStar (fun s4 => matchAmountTail gD ty (some nm') s4) s3) s2)
      ((' ' :: nm) ++ (' ' :: 'R' :: 'M' ::
        ((a0 :: amRest) ++ '.' :: f1 :: f2 :: ' ' :: 'R' :: 'M' ::
          (balInt ++ ['.', g1, g2])))) =
      some (MatchGroups.mk gD ty (some (' ' :: nm))
        ((a0 :: amRest) ++ '.' :: [f1, f2]) (balInt ++ '.' :: [g1, g2]), []) :=
    greedyPlus_skip3_hit hallname (by simp) (by decide) (by decide) (by decide)
      hDSname
      (greedyPlus_none_of_head hDSsp)
      (greedyPlus_none_of_head (takeWhile_cons_neg _ (by decide)))
      (greedyPlus_none_of_head (takeWhile_cons_neg _ (by decide)))
      h0
  simp only [hgp]

theorem digits12_eval1 {α : Type} {k : List Char → List Char → Option α}
    {x : Char} {rest : List Char} {a : α} (hx : x.isDigit = true)
    (hk : k [x] ('/' :: rest) = some a) :
    digits12 k (x :: '/' :: rest) = some a := by
  rw [show digits12 k (x :: '/' :: rest) =
      if x.isDigit then
        (if ('/' : Char).isDigit then
          (match k [x, '/'] rest with
           | some a' => some a'
           | none => k [x] ('/' :: rest))
         else k [x] ('/' :: rest))
      else none from rfl]
  rw [if_pos hx, if_neg (by decide), hk]

theorem digits12_eval2 {α : Type} {k : List Char → List Char → Option α}
    {x y : Char} {rest : List Char} {a : α}
    (hx : x.isDigit = true) (hy : y.isDigit = true)
    (hk : k [x, y] rest = some a) :
    digits12 k (x :: y :: rest) = some a := by
  rw [show digits12 k (x :: y :: rest) =
      if x.isDigit then
        (if y.isDigit then
          (match k [x, y] rest with
           | some a' => some a'
           | none => k [x] (y :: rest))
         else k [x] (y :: rest))
      else none from rfl]
  rw [if_pos hx, if_pos hy, hk]

theorem matchFull_tail2 (dg : List Char) {ty nm amInt balInt : List Char}
    {f1 f2 g1 g2 : Char} (hty : ty = receiveLit ∨ ty = payDirectLit ∨ ty = duitnowLit)
    (hnm_ne : nm ≠ []) (hnm : ∀ c ∈ nm, isNameChar c = true)
    (hamne : amInt ≠ []) (hamd : ∀ c ∈ amInt, c.isDigit = true)
    (hf1 : f1.isDigit = true) (hf2 : f2.isDigit = true)
    (hbalne : balInt ≠ []) (hbald : ∀ c ∈ balInt, c.isDigit = true)
    (hg1 : g1.isDigit = true) (hg2 : g2.isDigit = true) :
    lazyStar (fun s5 =>
      match matchType s5 with
      | some (ty', s6) => matchAfterType dg ty' s6
      | none => none)
      (' ' :: (ty ++ ' ' ::
        (nm ++ ' ' :: 'R' :: 'M' ::
          (amInt ++ '.' :: f1 :: f2 :: ' ' :: 'R' :: 'M' ::
            (balInt ++ ['.', g1, g2]))))) =
      some (MatchGroups.mk dg ty (some (' ' :: nm))
        (amInt ++ '.' :: [f1, f2]) (balInt ++ '.' :: [g1, g2]), []) := by
  have hsp : matchType (' ' :: (ty ++ ' ' ::
      (nm ++ ' ' :: 'R' :: 'M' ::
        (amInt ++ '.' :: f1 :: f2 :: ' ' :: 'R' :: 'M' ::
          (balInt ++ ['.', g1, g2]))))) = none :=
    matchType_cons_none _ (by decide) (by decide) (by decide)
  rw [lazyStar_cons_none (by simp only [hsp])]
  apply lazyStar_of_some
  have hmt := matchType_append (' ' ::
    (nm ++ ' ' :: 'R' :: 'M' ::
      (amInt ++ '.' :: f1 :: f2 :: ' ' :: 'R' :: 'M' ::
        (balInt ++ ['.', g1, g2])))) hty
  simp only [hmt]
  exact matchAfterType_layout hnm_ne hnm hamne hamd hf1 hf2 hbalne hbald hg1 hg2

theorem matchFull_layout {d m ty nm amInt balInt : List Char} {f1 f2 g1 g2 : Char}
    (hdd : ∀ c ∈ d, c.isDigit = true) (hdlen : d.length = 1 ∨ d.length = 2)
    (hmd : ∀ c ∈ m, c.isDigit = true) (hmlen : m.length = 1 ∨ m.length = 2)
    (hty : ty = receiveLit ∨ ty = payDirectLit ∨ ty = duitnowLit)
    (hnm_ne : nm ≠ []) (hnm : ∀ c ∈ nm, isNameChar c = true)
    (hamne : amInt ≠ []) (hamd : ∀ c ∈ amInt, c.isDigit = true)
    (hf1 : f1.isDigit = true) (hf2 : f2.isDigit = true)
    (hbalne : balInt ≠ []) (hbald : ∀ c ∈ balInt, c.isDigit = true)
    (hg1 : g1.isDigit = true) (hg2 : g2.isDigit = true) :
    matchFull (layoutChars d m ty nm amInt f1 f2 balInt g1 g2) =
      some (MatchGroups.mk (d ++ '/' :: (m ++ '/' :: "2025".toList)) ty
        (some (' ' :: nm))
        (amInt ++ '.' :: [f1, f2]) (balInt ++ '.' :: [g1, g2]), []) := by
  have htail := fun dg =>
    matchFull_tail2 dg hty hnm_ne hnm hamne hamd hf1 hf2 hbalne hbald hg1 hg2
  rcases hdlen with hd1 | hd2
  · obtain ⟨x, rfl⟩ := List.length_eq_one.mp hd1
    rcases hmlen with hm1 | hm2
    · obtain ⟨z, rfl⟩ := List.length_eq_one.mp hm1
      exact digits12_eval1 (hdd x (by simp))
        (digits12_eval1 (hmd z (by simp)) (htail _))
    · obtain ⟨z, w, rfl⟩ := List.length_eq_two.mp hm2
      exact digits12_eval1 (hdd x (by simp))
        (digits12_eval2 (hmd z (by simp)) (hmd w (by simp)) (htail _))
  · obtain ⟨x, y, rfl⟩ := List.length_eq_two.mp hd2
    rcases hmlen with hm1 | hm2
    · obtain ⟨z, rfl⟩ := List.length_eq_one.mp hm1
      exact digits12_eval2 (hdd x (by simp)) (hdd y (by simp))
        (digits12_eval1 (hmd z (by simp)) (htail _))
    · obtain ⟨z, w, rfl⟩ := List.length_eq_two.mp hm2
      exact digits12_eval2 (hdd x (by simp)) (hdd y (by simp))
        (digits12_eval2 (hmd z (by simp)) (hmd w (by simp)) (htail _))

theorem matchFull_nil : matchFull [] = none := rfl

theorem findAllAux_nil : ∀ fuel : Nat, findAllAux fuel [] = [] := by
  intro fuel
  cases fuel with
  | zero => rfl
  | succ n => rw [findAllAux_succ, matchFull_nil]

theorem findAll_layout {d m ty nm amInt balInt : List Char} {f1 f2 g1 g2 : Char}
    (hdd : ∀ c ∈ d, c.isDigit = true) (hdlen : d.length = 1 ∨ d.length = 2)
    (hmd : ∀ c ∈ m, c.isDigit = true) (hmlen : m.length = 1 ∨ m.length = 2)
    (hty : ty = receiveLit ∨ ty = payDirectLit ∨ ty = duitnowLit)
    (hnm_ne : nm ≠ []) (hnm : ∀ c ∈ nm, isNameChar c = true)
    (hamne : amInt ≠ []) (hamd : ∀ c ∈ amInt, c.isDigit = true)
    (hf1 : f1.isDigit = true) (hf2 : f2.isDigit = true)
    (hbalne : balInt ≠ []) (hbald : ∀ c ∈ balInt, c.isDigit = true)
    (hg1 : g1.isDigit = true) (hg2 : g2.isDigit = true) :
    findAll (layoutChars d m ty nm amInt f1 f2 balInt g1 g2) =
      [MatchGroups.mk (d ++ '/' :: (m ++ '/' :: "2025".toList)) ty
        (some (' ' :: nm))
        (amInt ++ '.' :: [f1, f2]) (balInt ++ '.' :: [g1, g2])] := by
  unfold findAll
  rw [findAllAux_succ]
  rw [matchFull_layout hdd hdlen hmd hmlen hty hnm_ne hnm hamne hamd hf1 hf2
    hbalne hbald hg1 hg2]
  simp only [findAllAux_nil]

theorem parseMoney_layout {intPart fr : List Char}
    (hint : ∀ c ∈ intPart, c.isDigit = true) :
    parseMoney (intPart ++ '.' :: fr) =
      (natOfDigits intPart : ℚ) + (natOfDigits fr : ℚ) / 10 ^ fr.length := by
  unfold parseMoney
  have hall : ∀ c ∈ intPart, (decide (c ≠ '.')) = true := fun c hc =>
    decide_eq_true (isDigit_ne_dot (hint c hc))
  have hdot : (decide (('.' : Char) ≠ '.')) = false := by decide
  have e1 : (intPart ++ '.' :: fr).takeWhile (fun c => decide (c ≠ '.')) =
      intPart := by
    rw [takeWhile_append_all _ hall]
    rw [takeWhile_cons_neg _ hdot, List.append_nil]
  have e2 : (intPart ++ '.' :: fr).dropWhile (fun c => decide (c ≠ '.')) =
      '.' :: fr := by
    rw [dropWhile_append_all _ hall]
    rw [dropWhile_cons_neg _ hdot]
  rw [e1, e2]
  rfl

theorem pyStrip_receive : pyStripList receiveLit = receiveLit := by decide

theorem pyStrip_payDirect : pyStripList payDirectLit = payDirectLit := by decide

theorem pyStrip_duitnow : pyStripList duitnowLit = duitnowLit := by decide

theorem preprocess_singleton {r : RawTransaction} {n : NormalizedTransaction}
    (h : normalizeRow r = Except.ok n) :
    preprocess_transactions [r] = Except.ok [n] := by
  unfold preprocess_transactions
  rw [if_neg (by simp)]
  rw [List.mapM_cons, h, ebind_ok, List.mapM_nil]
  rfl

theorem preprocess_singleton_err {r : RawTransaction} {e : String}
    (h : normalizeRow r = Except.error e) :
    preprocess_transactions [r] = Except.error e := by
  unfold preprocess_transactions
  rw [if_neg (by simp)]
  rw [List.mapM_cons, h, ebind_err]

/-- The record extracted from a whitespace-separated layout block:
every field of the embedded transaction is recovered (the captured name
is stripped of its leading separator space). -/
theorem extractFromText_layout {d m ty nm amInt balInt : List Char}
    {f1 f2 g1 g2 : Char}
    (hv : ValidLayout d m ty nm amInt f1 f2 balInt g1 g2) :
    extractFromText
        (String.mk (layoutChars d m ty nm amInt f1 f2 balInt g1 g2)) =
      [RawTransaction.mk (String.mk (d ++ '/' :: (m ++ '/' :: "2025".toList)))
        (String.mk ty) (String.mk nm)
        ((natOfDigits amInt : ℚ) + (natOfDigits [f1, f2] : ℚ) / 100)
        ((natOfDigits balInt : ℚ) + (natOfDigits [g1, g2] : ℚ) / 100)] := by
  obtain ⟨hdd, hdlen, hmd, hmlen, hdlo, hdhi, hmlo, hmhi, hty, hnm_ne, hnm,
    hnh, hnl, hamne, hamd, hf1, hf2, hbalne, hbald, hg1, hg2⟩ := hv
  have hstrip : pyStripList ty = ty := by
    rcases hty with rfl | rfl | rfl
    · exact pyStrip_receive
    · exact pyStrip_payDirect
    · exact pyStrip_duitnow
  unfold extractFromText
  rw [show (String.mk (layoutChars d m ty nm amInt f1 f2 balInt g1 g2)).toList =
      layoutChars d m ty nm amInt f1 f2 balInt g1 g2 from rfl]
  rw [findAll_layout hdd hdlen hmd hmlen hty hnm_ne hnm hamne hamd hf1 hf2
    hbalne hbald hg1 hg2]
  simp only [List.map_cons, List.map_nil]
  rw [show toRawTransaction
      (MatchGroups.mk (d ++ '/' :: (m ++ '/' :: "2025".toList)) ty
        (some (' ' :: nm)) (amInt ++ '.' :: [f1, f2])
        (balInt ++ '.' :: [g1, g2])) =
    RawTransaction.mk (String.mk (d ++ '/' :: (m ++ '/' :: "2025".toList)))
      (String.mk (pyStripList ty))
      (if (' ' :: nm) = ([] : List Char) then ""
       else String.mk (pyStripList (' ' :: nm)))
      (parseMoney (amInt ++ '.' :: [f1, f2]))
      (parseMoney (balInt ++ '.' :: [g1, g2])) from rfl]
  rw [if_neg (by simp), hstrip, pyStripList_space_cons hnh hnl,
    parseMoney_layout hamd, parseMoney_layout hbald]
  norm_num

/-- Date parsing of the layout's date field. -/
theorem parseDate_layout {d m : List Char}
    (hdd : ∀ c ∈ d, c.isDigit = true) (hdlen : d.length = 1 ∨ d.length = 2)
    (hmd : ∀ c ∈ m, c.isDigit = true) (hmlen : m.length = 1 ∨ m.length = 2)
    (hdlo : 1 ≤ natOfDigits d)
    (hdhi : natOfDigits d ≤ daysInMonth 2025 (natOfDigits m))
    (hmlo : 1 ≤ natOfDigits m) (hmhi : natOfDigits m ≤ 12) :
    parseDate (String.mk (d ++ '/' :: (m ++ '/' :: "2025".toList))) =
      some ⟨2025, natOfDigits m, natOfDigits d⟩ := by
  unfold parseDate
  rw [show (String.mk (d ++ '/' :: (m ++ '/' :: "2025".toList))).toList =
      d ++ ('/' :: (m ++ ('/' :: "2025".toList))) from rfl]
  have hy : natOfDigits "2025".toList = 2025 := by decide
  have h : parseDateChars (d ++ ('/' :: (m ++ ('/' :: "2025".toList)))) =
      some ⟨natOfDigits "2025".toList, natOfDigits m, natOfDigits d⟩ :=
    parseDateChars_layout
      (by intro hc; rw [hc] at hdlen; simp at hdlen)
      (by omega) hdd
      (by intro hc; rw [hc] at hmlen; simp at hmlen)
      (by omega) hmd
      (by decide) (by decide) (by rw [hy]; omega) hmlo hmhi hdlo
      (by rw [hy]; exact hdhi)
      (by rw [hy]; omega)
      (by rw [hy]
          have h31 := daysInMonth_le_31 2025 (natOfDigits m)
          omega)
  rw [h, hy]

theorem normalizeRow_eval {r : RawTransaction} {dd : Date}
    (h : parseDate r.date = some dd) :
    normalizeRow r = Except.ok (normSpec r dd) := by
  unfold normalizeRow normSpec
  rw [h]

theorem map_eq_of_zip {α β γ : Type} (f : α → γ) (g : β → γ) :
    ∀ (l1 : List α) (l2 : List β), l1.length = l2.length →
      (∀ p ∈ l1.zip l2, f p.1 = g p.2) → l1.map f = l2.map g := by
  intro l1
  induction l1 with
  | nil =>
    intro l2 hlen _
    cases l2 with
    | nil => rfl
    | cons b t => simp at hlen
  | cons a t ih =>
    intro l2 hlen hall
    cases l2 with
    | nil => simp at hlen
    | cons b t2 =>
      rw [List.zip_cons_cons] at hall
      simp only [List.map_cons]
      rw [hall (a, b) (by simp), ih t2 (by simpa using hlen)
        fun p hp => hall p (by simp [hp])]

/-!  Concrete texts used by the claims. -/

/-- The spec's example text, with its literal `" ... "` separators. -/
def C2text : String :=
  "12/03/2025 ... Receive from Wallet ... JOHN TAN RM150.00 RM2500.00"

/-- A single-record page text in the whitespace-separated layout. -/
def goodText : String :=
  "12/03/2025 Receive from Wallet JOHN TAN RM150.00 RM2500.00"

/-- A matchable record with amount `RM0.00`. -/
def zeroText : String := "5/5/2025 PayDirect Payment AB RM0.00 RM1.00"

theorem parseMoney_150 : parseMoney "150.00".toList = 150 := by
  rw [show "150.00".toList = ['1', '5', '0'] ++ '.' :: ['0', '0'] from rfl,
    parseMoney_layout (by decide)]
  rw [show natOfDigits ['1', '5', '0'] = 150 from by decide,
    show natOfDigits ['0', '0'] = 0 from by decide]
  norm_num

theorem parseMoney_2500 : parseMoney "2500.00".toList = 2500 := by
  rw [show "2500.00".toList = ['2', '5', '0', '0'] ++ '.' :: ['0', '0'] from rfl,
    parseMoney_layout (by decide)]
  rw [show natOfDigits ['2', '5', '0', '0'] = 2500 from by decide,
    show natOfDigits ['0', '0'] = 0 from by decide]
  norm_num

/-- Extraction result on the spec's literal example text: one record,
with the counterparty name empty (the `" ... "` dots block the name
class, so the optional group does not participate). -/
theorem extract_C2text : extractFromText C2text =
    [RawTransaction.mk "12/03/2025" "Receive from Wallet" "" 150 2500] := by
  unfold extractFromText
  rw [show findAll C2text.toList =
    [MatchGroups.mk "12/03/2025".toList "Receive from Wallet".toList none
      "150.00".toList "2500.00".toList] from by decide]
  simp only [List.map_cons, List.map_nil]
  rw [show toRawTransaction
      (MatchGroups.mk "12/03/2025".toList "Receive from Wallet".toList none
        "150.00".toList "2500.00".toList) =
    RawTransaction.mk "12/03/2025" "Receive from Wallet" ""
      (parseMoney "150.00".toList) (parseMoney "2500.00".toList) from rfl]
  rw [parseMoney_150, parseMoney_2500]


/-!
Fuel adequacy of the scan.  A successful `matchFull` always consumes at
least one character of the input (the date's first digit), so the fuel
`length + 1` given to `findAllAux` by `findAll` never runs out:
`findAllAux` computes the same list for every fuel above the length.
-/

theorem matchAmountTail_rest_le {gD gT : List Char} {gN : Option (List Char)}
    {s : List Char} {g : MatchGroups} {r : List Char}
    (h : matchAmountTail gD gT gN s = some (g, r)) : r.length ≤ s.length := by
  unfold matchAmountTail at h
  cases h0 : matchLit ['R', 'M'] s with
  | none => rw [h0] at h; exact absurd h (by simp)
  | some s1 =>
    rw [h0] at h
    have hs1 : s1.length ≤ s.length := by
      have he := matchLit_some h0
      rw [he, List.length_append]
      omega
    obtain ⟨j, hj1, hj2, h2⟩ := greedyPlus_some h
    have hd1 : (List.drop j s1).length ≤ s1.length := by
      simp only [List.length_drop]
      omega
    split at h2
    · rename_i s3 heq3
      rw [heq3] at hd1
      simp only [List.length_cons] at hd1
      split at h2
      · exact absurd h2 (by simp)
      · rename_i amFrac s4 heq4
        have hs4 : s4.length ≤ s3.length := by
          obtain ⟨he, hl⟩ := twoDigits_some heq4
          rw [he, List.length_append]
          omega
        obtain ⟨j2, hj21, hj22, h3⟩ := greedyPlus_some h2
        have hd2 : (List.drop j2 s4).length ≤ s4.length := by
          simp only [List.length_drop]
          omega
        split at h3
        · exact absurd h3 (by simp)
        · rename_i s6 heq6
          have hs6 : s6.length ≤ (List.drop j2 s4).length := by
            have he := matchLit_some heq6
            rw [he, List.length_append]
            omega
          obtain ⟨j3, hj31, hj32, h5⟩ := greedyPlus_some h3
          have hd3 : (List.drop j3 s6).length ≤ s6.length := by
            simp only [List.length_drop]
            omega
          split at h5
          · rename_i s8 heq8
            rw [heq8] at hd3
            simp only [List.length_cons] at hd3
            split at h5
            · exact absurd h5 (by simp)
            · rename_i balFrac s9 heq9
              have hs9 : s9.length ≤ s8.length := by
                obtain ⟨he, hl⟩ := twoDigits_some heq9
                rw [he, List.length_append]
                omega
              simp at h5
              obtain ⟨hg, hr⟩ := h5
              rw [← hr]
              omega
          · exact absurd h5 (by simp)
    · exact absurd h2 (by simp)

theorem matchAfterType_rest_le {gD gT : List Char} {s : List Char} {g : MatchGroups}
    {r : List Char} (h : matchAfterType gD gT s = some (g, r)) :
    r.length ≤ s.length := by
  unfold matchAfterType at h
  obtain ⟨t, ht, h1⟩ := lazyStar_some h
  split at h1
  · rename_i val hval
    obtain ⟨g', r'⟩ := val
    simp at h1
    obtain ⟨hg, hr⟩ := h1
    subst hg; subst hr
    obtain ⟨j, hj1, hj2, h2⟩ := greedyPlus_some hval
    obtain ⟨j2, hj21, hj22, h3⟩ := greedyPlus_some h2
    have hd2 : (List.drop j2 (List.drop j t)).length ≤ t.length := by
      simp only [List.length_drop]
      omega
    obtain ⟨t2, ht2, h4⟩ := lazyStar_some h3
    have := matchAmountTail_rest_le h4
    omega
  · obtain ⟨j, hj1, hj2, h2⟩ := greedyPlus_some h1
    have hd1 : (List.drop j t).length ≤ t.length := by
      simp only [List.length_drop]
      omega
    obtain ⟨t2, ht2, h3⟩ := lazyStar_some h2
    have := matchAmountTail_rest_le h3
    omega

theorem matchFull_rest_lt {s : List Char} {g : MatchGroups} {r : List Char}
    (h : matchFull s = some (g, r)) : r.length < s.length := by
  unfold matchFull at h
  obtain ⟨d1, s1, hlen1, h1⟩ := digits12_some h
  split at h1
  · rename_i s2
    simp only [List.length_cons] at hlen1
    obtain ⟨d2, s3, hlen3, h2⟩ := digits12_some h1
    split at h2
    · exact absurd h2 (by simp)
    · rename_i s4 heq4
      have hlen4 : s4.length ≤ s3.length := by
        have he := matchLit_some heq4
        rw [he, List.length_append]
        omega
      obtain ⟨t, htl, h3⟩ := lazyStar_some h2
      split at h3
      · rename_i ty s6 hmt
        have hlen6 : s6.length ≤ t.length := by
          have he := (matchType_some hmt).2
          rw [he, List.length_append]
          omega
        have := matchAfterType_rest_le h3
        omega
      · exact absurd h3 (by simp)
  · exact absurd h1 (by simp)

theorem findAllAux_fuel_eq :
    ∀ (n : Nat) {s : List Char} {fuel1 fuel2 : Nat}, s.length ≤ n →
      s.length < fuel1 → s.length < fuel2 →
      findAllAux fuel1 s = findAllAux fuel2 s := by
  intro n
  induction n with
  | zero =>
    intro s fuel1 fuel2 hs h1 h2
    have hnil : s = [] := by
      cases s with
      | nil => rfl
      | cons c t => simp at hs
    subst hnil
    simp only [findAllAux_nil]
  | succ m ih =>
    intro s fuel1 fuel2 hs h1 h2
    obtain ⟨f1, rfl⟩ : ∃ f, fuel1 = f + 1 := ⟨fuel1 - 1, by omega⟩
    obtain ⟨f2, rfl⟩ : ∃ f, fuel2 = f + 1 := ⟨fuel2 - 1, by omega⟩
    rw [findAllAux_succ, findAllAux_succ]
    cases hm : matchFull s with
    | some gr =>
      obtain ⟨g, rest⟩ := gr
      have hlt := matchFull_rest_lt hm
      have hrm : rest.length ≤ m := by omega
      exact congrArg (List.cons g) (ih hrm (by omega) (by omega))
    | none =>
      cases s with
      | nil => rfl
      | cons c t =>
        simp only [List.length_cons] at hs h1 h2
        exact ih (by omega) (by omega) (by omega)

/-- The fuel `length + 1` used by `findAll` is enough: for every larger
fuel the scan computes the same match list, so the fuel is an artifact
of the termination argument, not part of the semantics. -/
theorem findAll_fuel_adequate {s : List Char} {fuel : Nat} (h : s.length < fuel) :
    findAllAux fuel s = findAll s :=
  findAllAux_fuel_eq s.length (Nat.le_refl _) h (Nat.lt_succ_self _)

/-!  The claims. -/

/-- Claim C3: whenever the direct text-extraction pass over all pages
yields zero records, the `__main__` driver of `src/extract.py` attempts
the OCR strategy (rasterize, OCR, identical pattern pass) and returns
its result. -/
theorem C3_ocr_fallback (doc : Except String Document) (ocr : OcrEnv)
    (h : (extract_with_pdfplumber doc).1 = []) :
    mainExtract doc ocr = (extract_with_ocr ocr).1 := by
  unfold mainExtract
  rw [h, if_pos rfl]

/-- Witness for C3 at a concrete document whose only page has no
extractable text, with OCR recognising one transaction. -/
theorem C3_ocr_fallback_witness :
    (extract_with_pdfplumber (Except.ok ⟨[Except.ok none]⟩)).1 = [] ∧
    mainExtract (Except.ok ⟨[Except.ok none]⟩) ⟨Except.ok [goodText]⟩ =
      (extract_with_ocr ⟨Except.ok [goodText]⟩).1 :=
  ⟨rfl, C3_ocr_fallback (Except.ok ⟨[Except.ok none]⟩) ⟨Except.ok [goodText]⟩ rfl⟩

/-- Claim C4: a failed document open (wrong password, corrupt file) is
caught by `extract_transactions`, reported via the single `st.error`
diagnostic, and the function returns no records; the embedding is a
total function, so no exception propagates. -/
theorem C4_wrong_password (e : String) :
    extract_transactions (Except.error e) =
      ([], ["Error processing PDF: " ++ e]) := rfl

/-- Witness for C4 at a concrete failure message. -/
theorem C4_wrong_password_witness :
    extract_transactions (Except.error "incorrect password") =
      ([], ["Error processing PDF: incorrect password"]) :=
  C4_wrong_password "incorrect password"

/-- Claim C6: normalizing the empty record sequence returns the empty
collection and raises no error. -/
theorem C6_empty_normalize : preprocess_transactions [] = Except.ok [] := rfl

/-- Counterexample to C5 as stated: in `extract_transactions` the `try`
block wraps the whole page loop, so a failure on page 1 aborts the loop
and the matching record on page 2 is lost — the result is empty even
though page 2 alone yields a record. -/
theorem C5_counterexample :
    extract_transactions
        (Except.ok ⟨[Except.error "boom", Except.ok (some goodText)]⟩) =
      ([], ["Error processing PDF: boom"]) ∧
    (extractFromText goodText).length = 1 := by
  constructor
  · rfl
  · decide

/-- Claim C5 (amended): a per-page failure is caught and reported as a
single diagnostic and does not crash the run, but it aborts the loop:
the records of the pages before the failing page are returned, and the
pages after it are not processed. -/
theorem C5_amended_page_failure (px : String) (pre : List (Option String))
    (e : String) (post : List Page) :
    pagesLoop px (pre.map Except.ok ++ Except.error e :: post) =
      ((pagesLoop px (pre.map Except.ok)).1, [px ++ e]) := by
  induction pre with
  | nil => rfl
  | cons o t ih =>
    cases o with
    | none =>
      simp only [List.map_cons, List.cons_append]
      rw [show pagesLoop px (Except.ok none :: (t.map Except.ok ++
          Except.error e :: post)) =
        pagesLoop px (t.map Except.ok ++ Except.error e :: post) from rfl]
      rw [ih]
      rfl
    | some s =>
      simp only [List.map_cons, List.cons_append]
      by_cases hs : s = ""
      · subst hs
        rw [show pagesLoop px (Except.ok (some "") :: (t.map Except.ok ++
            Except.error e :: post)) =
          pagesLoop px (t.map Except.ok ++ Except.error e :: post) from by
            rw [pagesLoop]
            rw [if_pos rfl]]
        rw [ih]
        rw [show pagesLoop px (Except.ok (some "") :: t.map Except.ok) =
          pagesLoop px (t.map Except.ok) from by
            rw [pagesLoop]
            rw [if_pos rfl]]
      · rw [show pagesLoop px (Except.ok (some s) :: (t.map Except.ok ++
            Except.error e :: post)) =
          (if s = "" then
            pagesLoop px (t.map Except.ok ++ Except.error e :: post)
           else
            (extractFromText s ++
              (pagesLoop px (t.map Except.ok ++ Except.error e :: post)).1,
             (pagesLoop px (t.map Except.ok ++ Except.error e :: post)).2))
          from by rw [pagesLoop]]
        rw [if_neg hs, ih]
        rw [show pagesLoop px (Except.ok (some s) :: t.map Except.ok) =
          (if s = "" then pagesLoop px (t.map Except.ok)
           else
            (extractFromText s ++ (pagesLoop px (t.map Except.ok)).1,
             (pagesLoop px (t.map Except.ok)).2))
          from by rw [pagesLoop]]
        rw [if_neg hs]

/-- Witness for C5 (amended) at one good page before the failure and one
good page after it. -/
theorem C5_amended_page_failure_witness :
    pagesLoop "Error processing PDF: "
        ([some goodText].map Except.ok ++
          Except.error "boom" :: [Except.ok (some goodText)]) =
      ((pagesLoop "Error processing PDF: " ([some goodText].map Except.ok)).1,
       ["Error processing PDF: boom"]) :=
  C5_amended_page_failure "Error processing PDF: " [some goodText] "boom"
    [Except.ok (some goodText)]

theorem parseMoney_0 : parseMoney "0.00".toList = 0 := by
  rw [show "0.00".toList = ['0'] ++ '.' :: ['0', '0'] from rfl,
    parseMoney_layout (by decide)]
  rw [show natOfDigits ['0'] = 0 from by decide,
    show natOfDigits ['0', '0'] = 0 from by decide]
  norm_num

theorem parseMoney_1 : parseMoney "1.00".toList = 1 := by
  rw [show "1.00".toList = ['1'] ++ '.' :: ['0', '0'] from rfl,
    parseMoney_layout (by decide)]
  rw [show natOfDigits ['1'] = 1 from by decide,
    show natOfDigits ['0', '0'] = 0 from by decide]
  norm_num

/-- Counterexample to C1 as stated: the pattern matches `RM0.00`, and on
a zero-amount record of a non-credit type the computed `amount_signed`
equals `+amount` (both are `0`) although the type is not in the credit
set, so the "if and only if" fails. -/
theorem C1_counterexample :
    extractFromText zeroText =
      [RawTransaction.mk "5/5/2025" "PayDirect Payment" "AB" 0 1] ∧
    decide (("PayDirect Payment" : String) ∈ credits) = false ∧
    preprocess_transactions
        [RawTransaction.mk "5/5/2025" "PayDirect Payment" "AB" 0 1] =
      Except.ok [NormalizedTransaction.mk ⟨2025, 5, 5⟩ "PayDirect Payment"
        "AB" 0 1 0] ∧
    (NormalizedTransaction.mk ⟨2025, 5, 5⟩ "PayDirect Payment" "AB"
        (0 : ℚ) 1 0).amount_signed =
      (RawTransaction.mk "5/5/2025" "PayDirect Payment" "AB"
        (0 : ℚ) 1).amount := by
  refine ⟨?_, by decide, ?_, rfl⟩
  · unfold extractFromText
    rw [show findAll zeroText.toList =
      [MatchGroups.mk "5/5/2025".toList "PayDirect Payment".toList
        (some " AB".toList) "0.00".toList "1.00".toList] from by decide]
    simp only [List.map_cons, List.map_nil]
    rw [show toRawTransaction
        (MatchGroups.mk "5/5/2025".toList "PayDirect Payment".toList
          (some " AB".toList) "0.00".toList "1.00".toList) =
      RawTransaction.mk "5/5/2025" "PayDirect Payment" "AB"
        (parseMoney "0.00".toList) (parseMoney "1.00".toList) from rfl]
    rw [parseMoney_0, parseMoney_1]
  · have hpd : parseDate "5/5/2025" = some ⟨2025, 5, 5⟩ := by decide
    have h := preprocess_singleton (normalizeRow_eval (r :=
      RawTransaction.mk "5/5/2025" "PayDirect Payment" "AB" 0 1) hpd)
    rw [h]
    have hs : normSpec (RawTransaction.mk "5/5/2025" "PayDirect Payment"
        "AB" 0 1) ⟨2025, 5, 5⟩ =
        NormalizedTransaction.mk ⟨2025, 5, 5⟩ "PayDirect Payment" "AB"
          0 1 0 := by
      rw [show normSpec (RawTransaction.mk "5/5/2025" "PayDirect Payment"
          "AB" 0 1) ⟨2025, 5, 5⟩ =
        NormalizedTransaction.mk ⟨2025, 5, 5⟩ "PayDirect Payment" "AB" 0 1
          (if ("PayDirect Payment" : String) ∈ credits then (0 : ℚ)
           else -(0 : ℚ)) from rfl]
      rw [if_neg (by decide)]
      norm_num
    rw [hs]

/-- Claim C1 (amended): every normalized record's signed amount is
`+amount` when the type is in the credit set and `-amount` otherwise;
for records with positive amount this gives the claim's biconditionals:
`amount_signed = +amount` iff the type is a credit, and the sign of
`amount_signed` is positive iff the type is a credit.  (At `amount = 0`
the equation still holds but the biconditionals degenerate, which is
what the counterexample exhibits.) -/
theorem C1_amended_sign_law (txns : List RawTransaction)
    (out : List NormalizedTransaction)
    (h : preprocess_transactions txns = Except.ok out) :
    ∀ p ∈ txns.zip out,
      (p.2.amount_signed =
        if p.1.type ∈ credits then p.1.amount else -p.1.amount) ∧
      (0 < p.1.amount →
        ((p.2.amount_signed = p.1.amount ↔ p.1.type ∈ credits) ∧
         (p.1.type ∉ credits → p.2.amount_signed = -p.1.amount) ∧
         (0 < p.2.amount_signed ↔ p.1.type ∈ credits))) := by
  intro p hp
  obtain ⟨_, hall⟩ := preprocess_ok_spec h
  obtain ⟨dd, _, hn⟩ := hall p hp
  rw [hn]
  refine ⟨rfl, ?_⟩
  intro hpos
  by_cases hc : p.1.type ∈ credits
  · rw [show (normSpec p.1 dd).amount_signed =
        (if p.1.type ∈ credits then p.1.amount else -p.1.amount) from rfl,
      if_pos hc]
    exact ⟨⟨fun _ => hc, fun _ => rfl⟩, fun hnc => absurd hc hnc,
      ⟨fun _ => hc, fun _ => hpos⟩⟩
  · rw [show (normSpec p.1 dd).amount_signed =
        (if p.1.type ∈ credits then p.1.amount else -p.1.amount) from rfl,
      if_neg hc]
    refine ⟨⟨fun heq => ?_, fun hcc => absurd hcc hc⟩, fun _ => rfl,
      ⟨fun hlt => ?_, fun hcc => absurd hcc hc⟩⟩
    · exfalso; linarith
    · exfalso; linarith

/-- Witness for C1 (amended) at a credit record with positive amount. -/
theorem C1_amended_sign_law_witness :
    (0 : ℚ) < 150 ∧
    ((NormalizedTransaction.mk ⟨2025, 3, 12⟩ "Receive from Wallet"
        "JOHN TAN" 150 2500 150).amount_signed = (150 : ℚ) ↔
      ("Receive from Wallet" : String) ∈ credits) := by
  have hpd : parseDate "12/03/2025" = some ⟨2025, 3, 12⟩ := by decide
  have hsp : normSpec (RawTransaction.mk "12/03/2025" "Receive from Wallet"
      "JOHN TAN" 150 2500) ⟨2025, 3, 12⟩ =
      NormalizedTransaction.mk ⟨2025, 3, 12⟩ "Receive from Wallet"
        "JOHN TAN" 150 2500 150 := by
    rw [show normSpec (RawTransaction.mk "12/03/2025" "Receive from Wallet"
        "JOHN TAN" 150 2500) ⟨2025, 3, 12⟩ =
      NormalizedTransaction.mk ⟨2025, 3, 12⟩ "Receive from Wallet"
        "JOHN TAN" 150 2500
        (if ("Receive from Wallet" : String) ∈ credits then (150 : ℚ)
         else -(150 : ℚ)) from rfl]
    rw [if_pos (by decide)]
  have h : preprocess_transactions
      [RawTransaction.mk "12/03/2025" "Receive from Wallet" "JOHN TAN"
        150 2500] =
      Except.ok [NormalizedTransaction.mk ⟨2025, 3, 12⟩
        "Receive from Wallet" "JOHN TAN" 150 2500 150] := by
    have := preprocess_singleton (normalizeRow_eval (r :=
      RawTransaction.mk "12/03/2025" "Receive from Wallet" "JOHN TAN"
        150 2500) hpd)
    rw [this, hsp]
  exact ⟨by norm_num,
    ((C1_amended_sign_law _ _ h
      (RawTransaction.mk "12/03/2025" "Receive from Wallet" "JOHN TAN"
        150 2500,
       NormalizedTransaction.mk ⟨2025, 3, 12⟩ "Receive from Wallet"
        "JOHN TAN" 150 2500 150)
      (by simp)).2 (by norm_num)).1⟩

/-- Claim C7: every record produced by the extraction pattern has a
non-negative amount and balance (both come from `\d+\.\d{2}` captures)
and a type equal to one of the three literals of the alternation. -/
theorem C7_extraction_invariant (text : String) (r : RawTransaction)
    (hr : r ∈ extractFromText text) :
    0 ≤ r.amount ∧ 0 ≤ r.balance ∧
    r.type ∈ (["Receive from Wallet", "PayDirect Payment",
      "DUITNOW_RECEI"] : List String) := by
  unfold extractFromText at hr
  obtain ⟨g, hg, rfl⟩ := List.mem_map.mp hr
  refine ⟨parseMoney_nonneg _, parseMoney_nonneg _, ?_⟩
  have hty := findAll_type hg
  show String.mk (pyStripList g.type) ∈ _
  rcases hty with h | h | h <;> rw [h]
  · rw [pyStrip_receive]
    decide
  · rw [pyStrip_payDirect]
    decide
  · rw [pyStrip_duitnow]
    decide

/-- Witness for C7 at a concrete page text and its extracted record. -/
theorem C7_extraction_invariant_witness :
    0 ≤ (RawTransaction.mk "12/03/2025" "Receive from Wallet" "" (150 : ℚ)
      2500).amount ∧
    0 ≤ (RawTransaction.mk "12/03/2025" "Receive from Wallet" "" (150 : ℚ)
      2500).balance ∧
    (RawTransaction.mk "12/03/2025" "Receive from Wallet" "" (150 : ℚ)
      2500).type ∈ (["Receive from Wallet", "PayDirect Payment",
      "DUITNOW_RECEI"] : List String) :=
  C7_extraction_invariant C2text
    (RawTransaction.mk "12/03/2025" "Receive from Wallet" "" 150 2500)
    (by rw [extract_C2text]; simp)

/-- Claim C9: normalization leaves every record's balance unchanged —
the balances of the output are exactly the balances of the input, so no
balance is recomputed from the amounts. -/
theorem C9_balance_frame (txns : List RawTransaction)
    (out : List NormalizedTransaction)
    (h : preprocess_transactions txns = Except.ok out) :
    out.map (fun n => n.balance) = txns.map (fun r => r.balance) := by
  obtain ⟨hlen, hall⟩ := preprocess_ok_spec h
  refine (map_eq_of_zip _ _ txns out hlen.symm ?_).symm
  intro p hp
  obtain ⟨dd, _, hn⟩ := hall p hp
  rw [hn]
  rfl

/-- Witness for C9 at a concrete one-record input. -/
theorem C9_balance_frame_witness :
    ([NormalizedTransaction.mk ⟨2025, 5, 5⟩ "PayDirect Payment" "AB"
      0 1 0]).map (fun n => n.balance) =
    ([RawTransaction.mk "5/5/2025" "PayDirect Payment" "AB" 0 1]).map
      (fun r => r.balance) := by
  have hpd : parseDate "5/5/2025" = some ⟨2025, 5, 5⟩ := by decide
  have hsp : normSpec (RawTransaction.mk "5/5/2025" "PayDirect Payment"
      "AB" 0 1) ⟨2025, 5, 5⟩ =
      NormalizedTransaction.mk ⟨2025, 5, 5⟩ "PayDirect Payment" "AB"
        0 1 0 := by
    rw [show normSpec (RawTransaction.mk "5/5/2025" "PayDirect Payment"
        "AB" 0 1) ⟨2025, 5, 5⟩ =
      NormalizedTransaction.mk ⟨2025, 5, 5⟩ "PayDirect Payment" "AB" 0 1
        (if ("PayDirect Payment" : String) ∈ credits then (0 : ℚ)
         else -(0 : ℚ)) from rfl]
    rw [if_neg (by decide)]
    norm_num
  have h : preprocess_transactions
      [RawTransaction.mk "5/5/2025" "PayDirect Payment" "AB" 0 1] =
      Except.ok [NormalizedTransaction.mk ⟨2025, 5, 5⟩ "PayDirect Payment"
        "AB" 0 1 0] := by
    have := preprocess_singleton (normalizeRow_eval (r :=
      RawTransaction.mk "5/5/2025" "PayDirect Payment" "AB" 0 1) hpd)
    rw [this, hsp]
  exact C9_balance_frame _ _ h

/-- Claim C10: when the optional counterparty-name group does not
participate in a match, the built record's name is the empty string; and
every returned record's name is a defined, whitespace-stripped string
(stripping it again changes nothing).  In the embedding the name field
is a total `String`, never missing. -/
theorem C10_name_always_defined (text : String) :
    (∀ g ∈ findAll text.toList, g.nameG = none →
      (toRawTransaction g).name = "") ∧
    (∀ r ∈ extractFromText text, pyStripList r.name.toList =
      r.name.toList) := by
  constructor
  · intro g _ hnone
    rw [show (toRawTransaction g).name =
      (if (match g.nameG with
           | some nm => nm
           | none => ([] : List Char)) = ([] : List Char) then ""
       else String.mk (pyStripList (match g.nameG with
           | some nm => nm
           | none => ([] : List Char)))) from rfl]
    rw [hnone]
    simp
  · intro r hr
    unfold extractFromText at hr
    obtain ⟨g, _, rfl⟩ := List.mem_map.mp hr
    rw [show (toRawTransaction g).name =
      (if (match g.nameG with
           | some nm => nm
           | none => ([] : List Char)) = ([] : List Char) then ""
       else String.mk (pyStripList (match g.nameG with
           | some nm => nm
           | none => ([] : List Char)))) from rfl]
    split
    · rfl
    · rw [show (String.mk (pyStripList (match g.nameG with
           | some nm => nm
           | none => ([] : List Char)))).toList =
        pyStripList (match g.nameG with
           | some nm => nm
           | none => ([] : List Char)) from rfl]
      exact pyStripList_idem _

/-- Witness for C10 at the example text whose name group is absent. -/
theorem C10_name_always_defined_witness :
    (MatchGroups.mk "12/03/2025".toList "Receive from Wallet".toList none
        "150.00".toList "2500.00".toList) ∈ findAll C2text.toList ∧
    (toRawTransaction (MatchGroups.mk "12/03/2025".toList
        "Receive from Wallet".toList none "150.00".toList
        "2500.00".toList)).name = "" :=
  ⟨by decide,
   (C10_name_always_defined C2text).1
     (MatchGroups.mk "12/03/2025".toList "Receive from Wallet".toList none
       "150.00".toList "2500.00".toList)
     (by decide) rfl⟩

/-- Counterexample to C8 as stated: `01/01/1000` is a well-formed
`DD/MM/YYYY` date string — it conforms to the `day/month/year` format
with valid calendar ranges — yet the date parser fails on it, and a
one-record normalization run with that date raises: `pd.to_datetime(...,
format="%d/%m/%Y")` produces a `datetime64[ns]` timestamp, and the year
1000 lies outside the representable range, so it raises
`OutOfBoundsDatetime` on this conforming string. -/
theorem C8_counterexample :
    ConformsDMY "01/01/1000" ∧ parseDate "01/01/1000" = none ∧
    ∃ e, preprocess_transactions
        [RawTransaction.mk "01/01/1000" "PayDirect Payment" "A" 1 1] =
      Except.error e := by
  refine ⟨⟨['0', '1'], ['0', '1'], ['1', '0', '0', '0'], by decide⟩,
    by decide,
    "time data 01/01/1000 does not match format %d/%m/%Y", ?_⟩
  apply preprocess_singleton_err
  unfold normalizeRow
  rw [show parseDate (RawTransaction.mk "01/01/1000" "PayDirect Payment" "A"
      (1 : ℚ) (1 : ℚ)).date = none from by decide]
  rfl

/-- Claim C8 (amended): the normalizer parses dates in `day/month/year`
field order; parsing fails exactly on the strings that either do not
conform to that format (1-2 digit day, `/`, 1-2 digit month, `/`, 4
digit year, valid calendar ranges) or denote a calendar date outside
the `datetime64[ns]` timestamp range 1677-09-22 .. 2262-04-11 (where
`pd.to_datetime` raises `OutOfBoundsDatetime`); it succeeds on every
conforming in-range string with the first field read as the day, and a
one-record normalization run succeeds exactly when the record's date
conforms and is in range. -/
theorem C8_amended_date_parsing :
    (∀ s : String, parseDate s = none ↔ ¬ConformsDMYInRange s) ∧
    (∀ ds ms ys : List Char,
      ds ≠ [] → ds.length ≤ 2 → (∀ c ∈ ds, c.isDigit = true) →
      ms ≠ [] → ms.length ≤ 2 → (∀ c ∈ ms, c.isDigit = true) →
      ys.length = 4 → (∀ c ∈ ys, c.isDigit = true) →
      1 ≤ natOfDigits ys → 1 ≤ natOfDigits ms → natOfDigits ms ≤ 12 →
      1 ≤ natOfDigits ds →
      natOfDigits ds ≤ daysInMonth (natOfDigits ys) (natOfDigits ms) →
      16770922 ≤ natOfDigits ys * 10000 + natOfDigits ms * 100 +
        natOfDigits ds →
      natOfDigits ys * 10000 + natOfDigits ms * 100 +
        natOfDigits ds ≤ 22620411 →
      parseDate (String.mk (ds ++ ('/' :: (ms ++ ('/' :: ys))))) =
        some ⟨natOfDigits ys, natOfDigits ms, natOfDigits ds⟩) ∧
    (∀ r : RawTransaction,
      (∃ out, preprocess_transactions [r] = Except.ok out) ↔
        ConformsDMYInRange r.date) := by
  have hmain : ∀ s : String, parseDate s = none ↔ ¬ConformsDMYInRange s := by
    intro s
    constructor
    · intro h hc
      obtain ⟨ds, ms, ys, hsplit, h1, h2, h3, h4, h5, h6, h7, h8, h9, h10,
        h11, h12, h13, h14, h15⟩ := hc
      have hl := parseDateChars_layout h1 h2 h3 h4 h5 h6 h7 h8 h9 h10 h11
        h12 h13 h14 h15
      rw [show parseDate s = parseDateChars s.toList from rfl, hsplit] at h
      rw [hl] at h
      simp at h
    · intro hnc
      by_cases hne : parseDate s = none
      · exact hne
      · exfalso
        obtain ⟨dd, hdd⟩ := Option.ne_none_iff_exists'.mp hne
        exact hnc (parseDateChars_some_conform hdd)
  refine ⟨hmain, ?_, ?_⟩
  · intro ds ms ys h1 h2 h3 h4 h5 h6 h7 h8 h9 h10 h11 h12 h13 h14 h15
    exact parseDateChars_layout h1 h2 h3 h4 h5 h6 h7 h8 h9 h10 h11 h12 h13
      h14 h15
  · intro r
    have hpp : preprocess_transactions [r] = List.mapM normalizeRow [r] := by
      unfold preprocess_transactions
      rw [if_neg (by simp)]
    rw [hpp, mapM_normalizeRow_isOk [r]]
    constructor
    · intro hall
      obtain ⟨dd, hdd⟩ := hall r (by simp)
      by_contra hnc
      rw [(hmain r.date).mpr hnc] at hdd
      simp at hdd
    · intro hc r' hr'
      rw [List.mem_singleton] at hr'
      subst hr'
      cases hpd : parseDate r'.date with
      | none => exact absurd ((hmain r'.date).mp hpd) (not_not_intro hc)
      | some dd => exact ⟨dd, rfl⟩

/-- Witness for C8 (amended) at the conforming in-range date
`12/03/2025`. -/
theorem C8_amended_date_parsing_witness :
    parseDate (String.mk (['1', '2'] ++ ('/' :: (['0', '3'] ++
        ('/' :: ['2', '0', '2', '5']))))) =
      some ⟨natOfDigits ['2', '0', '2', '5'], natOfDigits ['0', '3'],
        natOfDigits ['1', '2']⟩ :=
  C8_amended_date_parsing.2.1 ['1', '2'] ['0', '3'] ['2', '0', '2', '5']
    (by decide) (by decide) (by decide) (by decide) (by decide) (by decide)
    (by decide) (by decide) (by decide) (by decide) (by decide) (by decide)
    (by decide) (by decide) (by decide)

/-- Counterexample to C2 as stated: on the literal example text the
`" ... "` dots separate the type from the name, the dots are outside the
`[A-Z\s\/]` class, so the optional name group goes absent and the
extracted name is the empty string, not `"JOHN TAN"`. -/
theorem C2_counterexample :
    extractFromText C2text =
      [RawTransaction.mk "12/03/2025" "Receive from Wallet" "" 150 2500] ∧
    (RawTransaction.mk "12/03/2025" "Receive from Wallet" ""
      (150 : ℚ) 2500).name = "" ∧
    decide (("" : String) = "JOHN TAN") = false :=
  ⟨extract_C2text, rfl, by decide⟩

/-- Claim C2 (amended): on the literal example text extraction yields
the record with date `12/03/2025`, type `Receive from Wallet`, empty
name, amount `150.00` and balance `2500.00`, and normalization gives
`amount_signed = +150.00`; and for every valid text block in the
whitespace-separated layout (type and counterparty name separated by
whitespace, not by other characters), extraction followed by
normalization recovers exactly the date, type, name, amount and balance
embedded in the text. -/
theorem C2_amended_roundtrip :
    (extractFromText C2text =
        [RawTransaction.mk "12/03/2025" "Receive from Wallet" "" 150 2500] ∧
     preprocess_transactions
        [RawTransaction.mk "12/03/2025" "Receive from Wallet" "" 150 2500] =
        Except.ok [NormalizedTransaction.mk ⟨2025, 3, 12⟩
          "Receive from Wallet" "" 150 2500 150]) ∧
    (∀ (d m ty nm amInt balInt : List Char) (f1 f2 g1 g2 : Char),
      ValidLayout d m ty nm amInt f1 f2 balInt g1 g2 →
      extractFromText
          (String.mk (layoutChars d m ty nm amInt f1 f2 balInt g1 g2)) =
        [RawTransaction.mk
          (String.mk (d ++ '/' :: (m ++ '/' :: "2025".toList)))
          (String.mk ty) (String.mk nm)
          ((natOfDigits amInt : ℚ) + (natOfDigits [f1, f2] : ℚ) / 100)
          ((natOfDigits balInt : ℚ) + (natOfDigits [g1, g2] : ℚ) / 100)] ∧
      preprocess_transactions
          [RawTransaction.mk
            (String.mk (d ++ '/' :: (m ++ '/' :: "2025".toList)))
            (String.mk ty) (String.mk nm)
            ((natOfDigits amInt : ℚ) + (natOfDigits [f1, f2] : ℚ) / 100)
            ((natOfDigits balInt : ℚ) + (natOfDigits [g1, g2] : ℚ) / 100)] =
        Except.ok [NormalizedTransaction.mk
          ⟨2025, natOfDigits m, natOfDigits d⟩ (String.mk ty) (String.mk nm)
          ((natOfDigits amInt : ℚ) + (natOfDigits [f1, f2] : ℚ) / 100)
          ((natOfDigits balInt : ℚ) + (natOfDigits [g1, g2] : ℚ) / 100)
          (if String.mk ty ∈ credits then
            (natOfDigits amInt : ℚ) + (natOfDigits [f1, f2] : ℚ) / 100
           else
            -((natOfDigits amInt : ℚ) + (natOfDigits [f1, f2] : ℚ) / 100))]) := by
  constructor
  · refine ⟨extract_C2text, ?_⟩
    have hpd : parseDate "12/03/2025" = some ⟨2025, 3, 12⟩ := by decide
    have h := preprocess_singleton (normalizeRow_eval (r :=
      RawTransaction.mk "12/03/2025" "Receive from Wallet" "" 150 2500) hpd)
    rw [h]
    rw [show normSpec (RawTransaction.mk "12/03/2025" "Receive from Wallet"
        "" 150 2500) ⟨2025, 3, 12⟩ =
      NormalizedTransaction.mk ⟨2025, 3, 12⟩ "Receive from Wallet" "" 150
        2500
        (if ("Receive from Wallet" : String) ∈ credits then (150 : ℚ)
         else -(150 : ℚ)) from rfl]
    rw [if_pos (by decide)]
  · intro d m ty nm amInt balInt f1 f2 g1 g2 hv
    refine ⟨extractFromText_layout hv, ?_⟩
    have hpd := parseDate_layout hv.d_digits hv.d_len hv.m_digits hv.m_len
      hv.d_lo hv.d_hi hv.m_lo hv.m_hi
    exact preprocess_singleton (normalizeRow_eval (r :=
      RawTransaction.mk
        (String.mk (d ++ '/' :: (m ++ '/' :: "2025".toList)))
        (String.mk ty) (String.mk nm)
        ((natOfDigits amInt : ℚ) + (natOfDigits [f1, f2] : ℚ) / 100)
        ((natOfDigits balInt : ℚ) + (natOfDigits [g1, g2] : ℚ) / 100)) hpd)

/-- Witness for C2 (amended) at a concrete whitespace-separated block:
`12/03/2025 Receive from Wallet JOHN TAN RM150.00 RM2500.00`. -/
theorem C2_amended_roundtrip_witness :
    extractFromText
        (String.mk (layoutChars ['1', '2'] ['0', '3'] receiveLit
          "JOHN TAN".toList ['1', '5', '0'] '0' '0' ['2', '5', '0', '0']
          '0' '0')) =
      [RawTransaction.mk
        (String.mk (['1', '2'] ++ '/' :: (['0', '3'] ++ '/' ::
          "2025".toList)))
        (String.mk receiveLit) (String.mk "JOHN TAN".toList)
        ((natOfDigits ['1', '5', '0'] : ℚ) +
          (natOfDigits ['0', '0'] : ℚ) / 100)
        ((natOfDigits ['2', '5', '0', '0'] : ℚ) +
          (natOfDigits ['0', '0'] : ℚ) / 100)] ∧
    preprocess_transactions
        [RawTransaction.mk
          (String.mk (['1', '2'] ++ '/' :: (['0', '3'] ++ '/' ::
            "2025".toList)))
          (String.mk receiveLit) (String.mk "JOHN TAN".toList)
          ((natOfDigits ['1', '5', '0'] : ℚ) +
            (natOfDigits ['0', '0'] : ℚ) / 100)
          ((natOfDigits ['2', '5', '0', '0'] : ℚ) +
            (natOfDigits ['0', '0'] : ℚ) / 100)] =
      Except.ok [NormalizedTransaction.mk
        ⟨2025, natOfDigits ['0', '3'], natOfDigits ['1', '2']⟩
        (String.mk receiveLit) (String.mk "JOHN TAN".toList)
        ((natOfDigits ['1', '5', '0'] : ℚ) +
          (natOfDigits ['0', '0'] : ℚ) / 100)
        ((natOfDigits ['2', '5', '0', '0'] : ℚ) +
          (natOfDigits ['0', '0'] : ℚ) / 100)
        (if String.mk receiveLit ∈ credits then
          (natOfDigits ['1', '5', '0'] : ℚ) +
            (natOfDigits ['0', '0'] : ℚ) / 100
         else
          -((natOfDigits ['1', '5', '0'] : ℚ) +
            (natOfDigits ['0', '0'] : ℚ) / 100))] :=
  C2_amended_roundtrip.2 ['1', '2'] ['0', '3'] receiveLit
    "JOHN TAN".toList ['1', '5', '0'] ['2', '5', '0', '0'] '0' '0' '0' '0'
    ⟨by decide, by decide, by decide, by decide, by decide, by decide,
     by decide, by decide, Or.inl rfl, by decide, by decide,
     (by
       intro c hc
       rw [show ("JOHN TAN".toList).head? = some 'J' from rfl] at hc
       injection hc with h
       subst h
       decide),
     (by
       intro c hc
       rw [show ("JOHN TAN".toList).getLast? = some 'N' from rfl] at hc
       injection hc with h
       subst h
       decide),
     by decide, by decide, by decide, by decide, by decide, by decide,
     by decide, by decide⟩
